import Mathlib

/-!
Verification of the generated API client models of `dj-set-downloader`
(`dj_set_downloader_api_client`): the wire (de)serialization code
(`from_dict` / `to_dict` of the model classes), the submit endpoint's
response dispatch, and — modelled from the specification, since the
server is not part of the client sources — the job lifecycle state
machine and the paginator.

Python dictionaries are modelled as association lists with strictly
sorted keys (`Dict`, `Dict.Canon`).  Python's `dict` equality compares
key/value sets and ignores insertion order, so every Python dictionary
has exactly one canonical representative here and Python `==` becomes
structural equality of canonical representatives.  JSON wire values are
the inductive type `Value`; numeric payloads are never inspected by any
of the code modelled here (they are passed through verbatim), so they
are carried as integers.
-/

set_option maxHeartbeats 1000000

namespace DjSet

/-- A JSON-like wire value. -/
inductive Value : Type where
  | vNull : Value
  | vBool : Bool → Value
  | vNum : Int → Value
  | vStr : String → Value
  | vList : List Value → Value
  | vDict : List (String × Value) → Value

mutual

/-- Boolean equality on wire values (structural). -/
def Value.beq : Value → Value → Bool
  | .vNull, .vNull => true
  | .vBool a, .vBool b => decide (a = b)
  | .vNum a, .vNum b => decide (a = b)
  | .vStr a, .vStr b => decide (a = b)
  | .vList a, .vList b => Value.beqList a b
  | .vDict a, .vDict b => Value.beqDict a b
  | _, _ => false

def Value.beqList : List Value → List Value → Bool
  | [], [] => true
  | a :: as, b :: bs => Value.beq a b && Value.beqList as bs
  | _, _ => false

def Value.beqDict : List (String × Value) → List (String × Value) → Bool
  | [], [] => true
  | (k1, v1) :: as, (k2, v2) :: bs =>
      decide (k1 = k2) && Value.beq v1 v2 && Value.beqDict as bs
  | _, _ => false

end

mutual

theorem Value.beq_iff : ∀ a b : Value, Value.beq a b = true ↔ a = b
  | .vNull, .vNull => by simp [Value.beq]
  | .vBool a, .vBool b => by simp [Value.beq]
  | .vNum a, .vNum b => by simp [Value.beq]
  | .vStr a, .vStr b => by simp [Value.beq]
  | .vList a, .vList b => by
      rw [Value.beq, Value.beqList_iff a b]
      simp
  | .vDict a, .vDict b => by
      rw [Value.beq, Value.beqDict_iff a b]
      simp
  | .vNull, .vBool _ => by simp [Value.beq]
  | .vNull, .vNum _ => by simp [Value.beq]
  | .vNull, .vStr _ => by simp [Value.beq]
  | .vNull, .vList _ => by simp [Value.beq]
  | .vNull, .vDict _ => by simp [Value.beq]
  | .vBool _, .vNull => by simp [Value.beq]
  | .vBool _, .vNum _ => by simp [Value.beq]
  | .vBool _, .vStr _ => by simp [Value.beq]
  | .vBool _, .vList _ => by simp [Value.beq]
  | .vBool _, .vDict _ => by simp [Value.beq]
  | .vNum _, .vNull => by simp [Value.beq]
  | .vNum _, .vBool _ => by simp [Value.beq]
  | .vNum _, .vStr _ => by simp [Value.beq]
  | .vNum _, .vList _ => by simp [Value.beq]
  | .vNum _, .vDict _ => by simp [Value.beq]
  | .vStr _, .vNull => by simp [Value.beq]
  | .vStr _, .vBool _ => by simp [Value.beq]
  | .vStr _, .vNum _ => by simp [Value.beq]
  | .vStr _, .vList _ => by simp [Value.beq]
  | .vStr _, .vDict _ => by simp [Value.beq]
  | .vList _, .vNull => by simp [Value.beq]
  | .vList _, .vBool _ => by simp [Value.beq]
  | .vList _, .vNum _ => by simp [Value.beq]
  | .vList _, .vStr _ => by simp [Value.beq]
  | .vList _, .vDict _ => by simp [Value.beq]
  | .vDict _, .vNull => by simp [Value.beq]
  | .vDict _, .vBool _ => by simp [Value.beq]
  | .vDict _, .vNum _ => by simp [Value.beq]
  | .vDict _, .vStr _ => by simp [Value.beq]
  | .vDict _, .vList _ => by simp [Value.beq]

theorem Value.beqList_iff : ∀ a b : List Value, Value.beqList a b = true ↔ a = b
  | [], [] => by simp [Value.beqList]
  | [], _ :: _ => by simp [Value.beqList]
  | _ :: _, [] => by simp [Value.beqList]
  | a :: as, b :: bs => by
      rw [Value.beqList, Bool.and_eq_true, Value.beq_iff a b, Value.beqList_iff as bs]
      simp

theorem Value.beqDict_iff :
    ∀ a b : List (String × Value), Value.beqDict a b = true ↔ a = b
  | [], [] => by simp [Value.beqDict]
  | [], _ :: _ => by simp [Value.beqDict]
  | _ :: _, [] => by simp [Value.beqDict]
  | (k1, v1) :: as, (k2, v2) :: bs => by
      rw [Value.beqDict, Bool.and_eq_true, Bool.and_eq_true,
        Value.beq_iff v1 v2, Value.beqDict_iff as bs]
      simp [and_assoc]

end

instance : DecidableEq Value := fun a b =>
  decidable_of_iff (Value.beq a b = true) (Value.beq_iff a b)

/-- Lexicographic strict order on character lists, by code point.
(The library order on `String` does not reduce inside the kernel, so
the development carries its own executable order for dictionary keys;
only its strict-total-order properties matter.) -/
def charsLt : List Char → List Char → Bool
  | [], [] => false
  | [], _ :: _ => true
  | _ :: _, [] => false
  | c :: cs, d :: ds =>
    if c.toNat < d.toNat then true
    else if d.toNat < c.toNat then false
    else charsLt cs ds

/-- Executable strict total order on dictionary keys. -/
def keyLt (a b : String) : Bool := charsLt a.data b.data

theorem charsLt_irrefl : ∀ l : List Char, charsLt l l = false := by
  intro l
  induction l with
  | nil => rfl
  | cons c cs ih =>
    rw [charsLt, if_neg (Nat.lt_irrefl _), if_neg (Nat.lt_irrefl _)]
    exact ih

theorem charsLt_trans :
    ∀ a b c : List Char, charsLt a b = true → charsLt b c = true →
      charsLt a c = true := by
  intro a
  induction a with
  | nil =>
    intro b c hab hbc
    cases b with
    | nil => simp [charsLt] at hab
    | cons y ys =>
      cases c with
      | nil => simp [charsLt] at hbc
      | cons z zs => simp [charsLt]
  | cons x xs ih =>
    intro b c hab hbc
    cases b with
    | nil => simp [charsLt] at hab
    | cons y ys =>
      cases c with
      | nil => simp [charsLt] at hbc
      | cons z zs =>
        rw [charsLt] at hab hbc ⊢
        by_cases h1 : x.toNat < y.toNat <;> by_cases h2 : y.toNat < x.toNat <;>
          by_cases h3 : y.toNat < z.toNat <;> by_cases h4 : z.toNat < y.toNat <;>
          simp [h1, h2, h3, h4] at hab hbc ⊢ <;>
          first
          | omega
          | exact Or.inl (by omega)
          | exact Or.inr ⟨by omega, ih ys zs hab hbc⟩

theorem charsLt_eq_of_not :
    ∀ a b : List Char, charsLt a b = false → charsLt b a = false → a = b := by
  intro a
  induction a with
  | nil =>
    intro b hab _
    cases b with
    | nil => rfl
    | cons y ys => simp [charsLt] at hab
  | cons x xs ih =>
    intro b hab hba
    cases b with
    | nil => simp [charsLt] at hba
    | cons y ys =>
      rw [charsLt] at hab hba
      by_cases h1 : x.toNat < y.toNat <;> by_cases h2 : y.toNat < x.toNat <;>
        simp [h1, h2] at hab hba
      have hn : x.toNat = y.toNat := by omega
      have hx : x = y := Char.ext (UInt32.ext hn)
      rw [hx, ih ys hab hba]

theorem keyLt_irrefl (a : String) : keyLt a a = false := charsLt_irrefl a.data

theorem keyLt_trans {a b c : String} (hab : keyLt a b = true)
    (hbc : keyLt b c = true) : keyLt a c = true :=
  charsLt_trans a.data b.data c.data hab hbc

theorem keyLt_eq_of_not {a b : String} (hab : keyLt a b = false)
    (hba : keyLt b a = false) : a = b := by
  have hd : a.data = b.data := charsLt_eq_of_not a.data b.data hab hba
  cases a
  cases b
  exact congrArg String.mk hd

theorem ne_of_keyLt {a b : String} (h : keyLt a b = true) : a ≠ b := by
  intro heq
  rw [heq, keyLt_irrefl] at h
  exact Bool.noConfusion h

/-- A Python dictionary with string keys, as an association list.
Canonical dictionaries (`Dict.Canon`) have strictly sorted keys. -/
abbrev Dict := List (String × Value)

namespace Dict

/-- `d[k]` as an option: `some v` when the key is present. -/
def lookup : Dict → String → Option Value
  | [], _ => none
  | (k, v) :: d, q => if q = k then some v else lookup d q

/-- Remove a key (the effect of Python's `d.pop(k, ...)` on `d`). -/
def erase : Dict → String → Dict
  | [], _ => []
  | (k, v) :: d, q => if q = k then erase d q else (k, v) :: erase d q

/-- Insert or overwrite a key, keeping keys sorted (the effect of
Python's `d[k] = v` up to dict equality). -/
def insert : Dict → String → Value → Dict
  | [], q, w => [(q, w)]
  | (k, v) :: d, q, w =>
    if q = k then (q, w) :: d
    else if keyLt q k then (q, w) :: (k, v) :: d
    else (k, v) :: insert d q w

/-- Canonical form: keys strictly increasing (hence no duplicates). -/
def Canon (d : Dict) : Prop := d.Pairwise (fun a b => keyLt a.1 b.1 = true)

/-- Executable check for `Canon`, used by the well-typedness predicates. -/
def keysSorted : Dict → Bool
  | [] => true
  | [_] => true
  | a :: b :: d => keyLt a.1 b.1 && keysSorted (b :: d)

theorem canon_nil : Canon [] := List.Pairwise.nil

theorem canon_cons {a : String × Value} {d : Dict} :
    Canon (a :: d) ↔ (∀ b ∈ d, keyLt a.1 b.1 = true) ∧ Canon d := by
  simp [Canon, List.pairwise_cons]

theorem keysSorted_iff_canon : ∀ {d : Dict}, keysSorted d = true ↔ Canon d := by
  intro d
  induction d with
  | nil => simp [keysSorted, canon_nil]
  | cons a d ih =>
    cases d with
    | nil => simp [keysSorted, Canon]
    | cons b d =>
      rw [keysSorted]
      rw [canon_cons]
      rw [canon_cons] at ih ⊢
      constructor
      · intro h
        have h1 := (Bool.and_eq_true _ _).mp h
        have hb : keyLt a.1 b.1 = true := h1.1
        have rest := ih.mp h1.2
        refine ⟨?_, rest⟩
        intro c hc
        rcases List.mem_cons.mp hc with h | h
        · subst h; exact hb
        · exact keyLt_trans hb (rest.1 c h)
      · intro h
        refine (Bool.and_eq_true _ _).mpr ⟨?_, ih.mpr h.2⟩
        exact h.1 b (List.mem_cons_self b d)

theorem lookup_nil (q : String) : lookup [] q = none := rfl

theorem lookup_cons (k : String) (v : Value) (d : Dict) (q : String) :
    lookup ((k, v) :: d) q = if q = k then some v else lookup d q := rfl

theorem lookup_erase (d : Dict) (k q : String) :
    lookup (erase d k) q = if q = k then none else lookup d q := by
  induction d with
  | nil => simp [erase, lookup]
  | cons a d ih =>
    obtain ⟨k1, v1⟩ := a
    rw [erase]
    by_cases hk : k = k1
    · rw [if_pos hk, ih, lookup_cons]
      by_cases hq : q = k
      · rw [if_pos hq, if_pos hq]
      · rw [if_neg hq, if_neg hq, if_neg (fun h => hq (h.trans hk.symm))]
    · rw [if_neg hk, lookup_cons, lookup_cons, ih]
      by_cases hq1 : q = k1
      · have hq2 : ¬ q = k := fun h => hk (h.symm.trans hq1)
        rw [if_pos hq1, if_neg hq2, if_pos hq1]
      · rw [if_neg hq1, if_neg hq1]

theorem lookup_insert (d : Dict) (k : String) (v : Value) (q : String) :
    lookup (insert d k v) q = if q = k then some v else lookup d q := by
  induction d with
  | nil => simp [insert, lookup]
  | cons a d ih =>
    obtain ⟨k1, v1⟩ := a
    rw [insert]
    by_cases hk : k = k1
    · rw [if_pos hk, lookup_cons, lookup_cons]
      by_cases hq : q = k
      · rw [if_pos hq, if_pos hq]
      · rw [if_neg hq, if_neg hq, if_neg (fun h => hq (h.trans hk.symm))]
    · rw [if_neg hk]
      by_cases hlt : keyLt k k1 = true
      · rw [if_pos hlt, lookup_cons, lookup_cons]
      · rw [if_neg hlt, lookup_cons, lookup_cons, ih]
        by_cases hq1 : q = k1
        · have hq2 : ¬ q = k := fun h => hk (h.symm.trans hq1)
          rw [if_pos hq1, if_neg hq2, if_pos hq1]
        · rw [if_neg hq1, if_neg hq1]

theorem mem_insert {d : Dict} {k : String} {v : Value} {b : String × Value}
    (h : b ∈ insert d k v) : b = (k, v) ∨ b ∈ d := by
  induction d with
  | nil => simpa [insert] using h
  | cons a d ih =>
    obtain ⟨k1, v1⟩ := a
    rw [insert] at h
    by_cases hk : k = k1
    · rw [if_pos hk] at h
      rcases List.mem_cons.mp h with h1 | h1
      · exact Or.inl h1
      · exact Or.inr (List.mem_cons_of_mem _ h1)
    · rw [if_neg hk] at h
      by_cases hlt : keyLt k k1 = true
      · rw [if_pos hlt] at h
        rcases List.mem_cons.mp h with h1 | h1
        · exact Or.inl h1
        · exact Or.inr h1
      · rw [if_neg hlt] at h
        rcases List.mem_cons.mp h with h1 | h1
        · exact Or.inr (by simp [h1])
        · rcases ih h1 with h2 | h2
          · exact Or.inl h2
          · exact Or.inr (List.mem_cons_of_mem _ h2)

theorem erase_sublist (d : Dict) (k : String) : List.Sublist (erase d k) d := by
  induction d with
  | nil => simp [erase]
  | cons a d ih =>
    obtain ⟨k1, v1⟩ := a
    rw [erase]
    by_cases hk : k = k1
    · rw [if_pos hk]
      exact ih.cons _
    · rw [if_neg hk]
      exact ih.cons₂ _

theorem canon_erase {d : Dict} (h : Canon d) (k : String) : Canon (erase d k) :=
  List.Pairwise.sublist (erase_sublist d k) h

theorem canon_insert {d : Dict} (h : Canon d) (k : String) (v : Value) :
    Canon (insert d k v) := by
  induction d with
  | nil => simp [insert, Canon]
  | cons a d ih =>
    obtain ⟨k1, v1⟩ := a
    rw [canon_cons] at h
    rw [insert]
    by_cases hk : k = k1
    · rw [if_pos hk]
      refine canon_cons.mpr ⟨?_, h.2⟩
      intro b hb
      exact hk ▸ h.1 b hb
    · rw [if_neg hk]
      by_cases hlt : keyLt k k1 = true
      · rw [if_pos hlt]
        refine canon_cons.mpr ⟨?_, canon_cons.mpr h⟩
        intro b hb
        rcases List.mem_cons.mp hb with h1 | h1
        · rw [h1]; exact hlt
        · exact keyLt_trans hlt (h.1 b h1)
      · rw [if_neg hlt]
        have hgt : keyLt k1 k = true := by
          cases hgt : keyLt k1 k with
          | true => rfl
          | false =>
            exact absurd (keyLt_eq_of_not (Bool.not_eq_true _ ▸ hlt) hgt) hk
        refine canon_cons.mpr ⟨?_, ih h.2⟩
        intro b hb
        rcases mem_insert hb with h1 | h1
        · rw [h1]
          exact hgt
        · exact h.1 b h1

theorem lookup_eq_none {d : Dict} {k : String} (h : ∀ b ∈ d, k ≠ b.1) :
    lookup d k = none := by
  induction d with
  | nil => rfl
  | cons a d ih =>
    obtain ⟨k1, v1⟩ := a
    have hne : k ≠ k1 := h (k1, v1) (List.mem_cons_self _ _)
    rw [lookup_cons, if_neg hne]
    exact ih (fun b hb => h b (List.mem_cons_of_mem _ hb))

/-- Canonical dictionaries with the same lookup function are equal:
this is exactly Python's `dict` equality. -/
theorem ext {d1 d2 : Dict} (h1 : Canon d1) (h2 : Canon d2)
    (h : ∀ k, lookup d1 k = lookup d2 k) : d1 = d2 := by
  induction d1 generalizing d2 with
  | nil =>
    cases d2 with
    | nil => rfl
    | cons b t2 =>
      obtain ⟨k2, v2⟩ := b
      have := h k2
      rw [lookup_nil, lookup_cons, if_pos rfl] at this
      exact Option.noConfusion this
  | cons a t1 ih =>
    obtain ⟨k1, v1⟩ := a
    cases d2 with
    | nil =>
      have := h k1
      rw [lookup_nil, lookup_cons, if_pos rfl] at this
      exact Option.noConfusion this
    | cons b t2 =>
      obtain ⟨k2, v2⟩ := b
      rw [canon_cons] at h1 h2
      have hk : k1 = k2 := by
        cases hlt : keyLt k1 k2 with
        | true =>
          exfalso
          have hl1 := h k1
          rw [lookup_cons, lookup_cons, if_pos rfl, if_neg (ne_of_keyLt hlt)] at hl1
          rw [lookup_eq_none
            (fun c hc => ne_of_keyLt (keyLt_trans hlt (h2.1 c hc)))] at hl1
          exact Option.noConfusion hl1
        | false =>
          cases hgt : keyLt k2 k1 with
          | true =>
            exfalso
            have hl2 := h k2
            rw [lookup_cons, lookup_cons,
              if_neg (ne_of_keyLt hgt), if_pos rfl] at hl2
            rw [lookup_eq_none
              (fun c hc => ne_of_keyLt (keyLt_trans hgt (h1.1 c hc)))] at hl2
            exact Option.noConfusion hl2.symm
          | false => exact keyLt_eq_of_not hlt hgt
      subst hk
      have hv : v1 = v2 := by
        have := h k1
        rw [lookup_cons, lookup_cons, if_pos rfl, if_pos rfl] at this
        exact Option.some.inj this
      subst hv
      have htail : t1 = t2 := by
        refine ih h1.2 h2.2 ?_
        intro k
        by_cases hk1 : k = k1
        · subst hk1
          rw [lookup_eq_none (fun c hc => ne_of_keyLt (h1.1 c hc)),
            lookup_eq_none (fun c hc => ne_of_keyLt (h2.1 c hc))]
        · have := h k
          rw [lookup_cons, lookup_cons, if_neg hk1, if_neg hk1] at this
          exact this
      rw [htail]

/-- `insertOpt d k v?`: insert the key only when the optional value is
present — the `if field is not UNSET: field_dict[key] = field` pattern
that ends every generated `to_dict`. -/
def insertOpt (d : Dict) (k : String) : Option Value → Dict
  | none => d
  | some v => insert d k v

theorem lookup_insertOpt (d : Dict) (k : String) (v? : Option Value) (q : String) :
    lookup (insertOpt d k v?) q = if q = k then v?.or (lookup d q) else lookup d q := by
  cases v? with
  | none =>
    rw [insertOpt]
    by_cases hq : q = k
    · rw [if_pos hq, Option.or, hq]
    · rw [if_neg hq]
  | some v =>
    rw [insertOpt, lookup_insert]
    by_cases hq : q = k
    · rw [if_pos hq, if_pos hq, Option.or]
    · rw [if_neg hq, if_neg hq]

theorem canon_insertOpt {d : Dict} (h : Canon d) (k : String) (v? : Option Value) :
    Canon (insertOpt d k v?) := by
  cases v? with
  | none => exact h
  | some v => exact canon_insert h k v

end Dict

/-- Python truthiness `bool(v)` of a wire value (`UNSET` itself is falsy
and is handled separately by the callers). -/
def Value.falsy : Value → Bool
  | .vNull => true
  | .vBool b => !b
  | .vNum n => decide (n = 0)
  | .vStr s => decide (s = "")
  | .vList l => l.isEmpty
  | .vDict d => d.isEmpty

/-- `dict(v)` on a wire value: succeeds exactly on objects.  (Python's
`dict(·)` would also accept a list of key/value pairs; JSON objects
always arrive as `vDict`, and no claim touches that corner.) -/
def Value.asDict : Value → Option Dict
  | .vDict d => some d
  | _ => none

/-- Parse a nested model from an optional wire value: an absent key
stays the `UNSET` marker, a present value must be a mapping and is
parsed by `f`; anything else raises (the
`if isinstance(x, Unset): ... else: Model.from_dict(x)` pattern). -/
def parseNested {α : Type} (f : Dict → Option α) : Option Value → Option (Option α)
  | none => some none
  | some v =>
    match v.asDict with
    | some dd => (f dd).map some
    | none => none

/-- Parse every element of a wire array as a mapping via `f`; a
non-mapping element raises. -/
def parseAll {α : Type} (f : Dict → Option α) : List Value → Option (List α)
  | [] => some []
  | x :: xs =>
    match x.asDict with
    | some dd =>
      match f dd, parseAll f xs with
      | some a, some as => some (a :: as)
      | _, _ => none
    | none => none

/-- The `for item in (popped or []): out.append(Model.from_dict(item))`
loop of the generated `from_dict`s: an absent key or a falsy value (such
as JSON `null` or the empty list) yields the empty list — never the
`UNSET` marker — and a truthy non-array raises. -/
def parseObjList {α : Type} (f : Dict → Option α) : Option Value → Option (List α)
  | none => some []
  | some (.vList l) => parseAll f l
  | some v => if v.falsy then some [] else none

/-- `ProgressStage` — the six-member string enum of
`models/progress_stage.py`. -/
inductive ProgressStage : Type where
  | complete
  | downloading
  | error
  | importing
  | initializing
  | processing
deriving DecidableEq

/-- The wire string of a stage (`.value` on the Python enum member). -/
def ProgressStage.value : ProgressStage → String
  | .complete => "complete"
  | .downloading => "downloading"
  | .error => "error"
  | .importing => "importing"
  | .initializing => "initializing"
  | .processing => "processing"

/-- The enum call `ProgressStage(x)` performed by
`ProgressEvent.from_dict`: yields a member for exactly the six member
strings and raises `ValueError` on every other value. -/
def ProgressStage.ofValue : Value → Option ProgressStage
  | .vStr "complete" => some .complete
  | .vStr "downloading" => some .downloading
  | .vStr "error" => some .error
  | .vStr "importing" => some .importing
  | .vStr "initializing" => some .initializing
  | .vStr "processing" => some .processing
  | _ => none

/-- `models/domain_track.py`: all five fields optional, `UNSET`
sentineled (`none` here), values never inspected. -/
structure DomainTrack : Type where
  artist : Option Value
  end_time : Option Value
  name : Option Value
  start_time : Option Value
  track_number : Option Value
  additional_properties : Dict
deriving DecidableEq

/-- `DomainTrack.to_dict`: additional properties first, then each set
field under its wire key — note the snake_case keys of this model. -/
def DomainTrack.to_dict (m : DomainTrack) : Dict :=
  ((((m.additional_properties.insertOpt "artist" m.artist).insertOpt
    "end_time" m.end_time).insertOpt "name" m.name).insertOpt
    "start_time" m.start_time).insertOpt "track_number" m.track_number

/-- `DomainTrack.from_dict`: pop the five wire keys (absent stays
`UNSET`), the remainder of the mapping becomes `additional_properties`.
Total: wrapped in `Option` only for uniformity with the fallible
`from_dict`s. -/
def DomainTrack.from_dict (d : Dict) : Option DomainTrack :=
  some
    { artist := d.lookup "artist"
      end_time := d.lookup "end_time"
      name := d.lookup "name"
      start_time := d.lookup "start_time"
      track_number := d.lookup "track_number"
      additional_properties :=
        ((((d.erase "artist").erase "end_time").erase "name").erase
          "start_time").erase "track_number" }

/-- `models/progress_track_details.py`. -/
structure ProgressTrackDetails : Type where
  current_track : Option Value
  processed_tracks : Option Value
  total_tracks : Option Value
  track_number : Option Value
  additional_properties : Dict
deriving DecidableEq

/-- `ProgressTrackDetails.to_dict`. -/
def ProgressTrackDetails.to_dict (m : ProgressTrackDetails) : Dict :=
  (((m.additional_properties.insertOpt "currentTrack" m.current_track).insertOpt
    "processedTracks" m.processed_tracks).insertOpt
    "totalTracks" m.total_tracks).insertOpt "trackNumber" m.track_number

/-- `ProgressTrackDetails.from_dict` (total). -/
def ProgressTrackDetails.from_dict (d : Dict) : Option ProgressTrackDetails :=
  some
    { current_track := d.lookup "currentTrack"
      processed_tracks := d.lookup "processedTracks"
      total_tracks := d.lookup "totalTracks"
      track_number := d.lookup "trackNumber"
      additional_properties :=
        (((d.erase "currentTrack").erase "processedTracks").erase
          "totalTracks").erase "trackNumber" }

/-- `models/domain_tracklist.py`. -/
structure DomainTracklist : Type where
  artist : Option Value
  genre : Option Value
  name : Option Value
  tracks : Option (List DomainTrack)
  year : Option Value
  additional_properties : Dict
deriving DecidableEq

/-- `DomainTracklist.to_dict`: the `tracks` list (when set) is
serialized element-wise. -/
def DomainTracklist.to_dict (m : DomainTracklist) : Dict :=
  ((((m.additional_properties.insertOpt "artist" m.artist).insertOpt
    "genre" m.genre).insertOpt "name" m.name).insertOpt
    "tracks" (m.tracks.map (fun l => Value.vList (l.map (fun t => Value.vDict t.to_dict))))).insertOpt
    "year" m.year

/-- `DomainTracklist.from_dict`: the popped `tracks` value goes through
the `_tracks or []` loop, so an absent key produces the empty list, not
`UNSET`. -/
def DomainTracklist.from_dict (d : Dict) : Option DomainTracklist :=
  match parseObjList DomainTrack.from_dict (d.lookup "tracks") with
  | none => none
  | some ts =>
    some
      { artist := d.lookup "artist"
        genre := d.lookup "genre"
        name := d.lookup "name"
        tracks := some ts
        year := d.lookup "year"
        additional_properties :=
          ((((d.erase "artist").erase "genre").erase "name").erase
            "tracks").erase "year" }

/-- `models/progress_event.py`. -/
structure ProgressEvent : Type where
  data : Option Value
  error : Option Value
  message : Option Value
  progress : Option Value
  stage : Option ProgressStage
  timestamp : Option Value
  track_details : Option ProgressTrackDetails
  additional_properties : Dict
deriving DecidableEq

/-- `ProgressEvent.to_dict`: a set stage is emitted as its member
string, set track details as a nested mapping. -/
def ProgressEvent.to_dict (m : ProgressEvent) : Dict :=
  ((((((m.additional_properties.insertOpt "data" m.data).insertOpt
    "error" m.error).insertOpt "message" m.message).insertOpt
    "progress" m.progress).insertOpt
    "stage" (m.stage.map (fun s => Value.vStr s.value))).insertOpt
    "timestamp" m.timestamp).insertOpt
    "trackDetails" (m.track_details.map (fun td => Value.vDict td.to_dict))

/-- The stage handling of `ProgressEvent.from_dict`: an absent key
stays the `UNSET` marker, a present value goes through the
`ProgressStage(...)` enum call, whose `ValueError` propagates. -/
def parseStage : Option Value → Option (Option ProgressStage)
  | none => some none
  | some v => (ProgressStage.ofValue v).map some

/-- `ProgressEvent.from_dict`: `stage` must be a valid member string
when present, `trackDetails` must be a mapping when present; the other
five fields pass through uninspected. -/
def ProgressEvent.from_dict (d : Dict) : Option ProgressEvent :=
  match parseStage (d.lookup "stage"),
      parseNested ProgressTrackDetails.from_dict (d.lookup "trackDetails") with
  | some st, some td =>
    some
      { data := d.lookup "data"
        error := d.lookup "error"
        message := d.lookup "message"
        progress := d.lookup "progress"
        stage := st
        timestamp := d.lookup "timestamp"
        track_details := td
        additional_properties :=
          ((((((d.erase "data").erase "error").erase "message").erase
            "progress").erase "stage").erase "timestamp").erase "trackDetails" }
  | _, _ => none

/-- `models/job_status.py`. -/
structure JobStatus : Type where
  end_time : Option Value
  error : Option Value
  events : Option (List ProgressEvent)
  id : Option Value
  message : Option Value
  progress : Option Value
  results : Option Value
  start_time : Option Value
  status : Option Value
  tracklist : Option DomainTracklist
  additional_properties : Dict
deriving DecidableEq

/-- `JobStatus.to_dict`. -/
def JobStatus.to_dict (m : JobStatus) : Dict :=
  (((((((((m.additional_properties.insertOpt "endTime" m.end_time).insertOpt
    "error" m.error).insertOpt
    "events" (m.events.map (fun l => Value.vList (l.map (fun e => Value.vDict e.to_dict))))).insertOpt
    "id" m.id).insertOpt "message" m.message).insertOpt
    "progress" m.progress).insertOpt "results" m.results).insertOpt
    "startTime" m.start_time).insertOpt "status" m.status).insertOpt
    "tracklist" (m.tracklist.map (fun t => Value.vDict t.to_dict))

/-- `JobStatus.from_dict`: `events` goes through the `_events or []`
loop (absent becomes the empty list); `tracklist` stays `UNSET` when
absent and is parsed when present. -/
def JobStatus.from_dict (d : Dict) : Option JobStatus :=
  match parseObjList ProgressEvent.from_dict (d.lookup "events"),
      parseNested DomainTracklist.from_dict (d.lookup "tracklist") with
  | some evs, some tl =>
    some
      { end_time := d.lookup "endTime"
        error := d.lookup "error"
        events := some evs
        id := d.lookup "id"
        message := d.lookup "message"
        progress := d.lookup "progress"
        results := d.lookup "results"
        start_time := d.lookup "startTime"
        status := d.lookup "status"
        tracklist := tl
        additional_properties :=
          (((((((((d.erase "endTime").erase "error").erase "events").erase
            "id").erase "message").erase "progress").erase "results").erase
            "startTime").erase "status").erase "tracklist" }
  | _, _ => none

/-- `models/job_request.py`: `tracklist` and `url` are required
(popped without a default: a missing key raises `KeyError`). -/
structure JobRequest : Type where
  tracklist : Value
  url : Value
  file_extension : Option Value
  max_concurrent_tasks : Option Value
  additional_properties : Dict
deriving DecidableEq

/-- `JobRequest.to_dict`: the two required keys are always written (and
overwrite any colliding additional property); the optional keys only
when set. -/
def JobRequest.to_dict (m : JobRequest) : Dict :=
  (((m.additional_properties.insert "tracklist" m.tracklist).insert
    "url" m.url).insertOpt "fileExtension" m.file_extension).insertOpt
    "maxConcurrentTasks" m.max_concurrent_tasks

/-- `JobRequest.from_dict`. -/
def JobRequest.from_dict (d : Dict) : Option JobRequest :=
  match d.lookup "tracklist", d.lookup "url" with
  | some t, some u =>
    some
      { tracklist := t
        url := u
        file_extension := d.lookup "fileExtension"
        max_concurrent_tasks := d.lookup "maxConcurrentTasks"
        additional_properties :=
          (((d.erase "tracklist").erase "url").erase "fileExtension").erase
            "maxConcurrentTasks" }
  | _, _ => none

/-- `models/job_response.py`. -/
structure JobResponse : Type where
  jobs : Option (List JobStatus)
  page : Option Value
  page_size : Option Value
  total_jobs : Option Value
  total_pages : Option Value
  additional_properties : Dict
deriving DecidableEq

/-- `JobResponse.to_dict`. -/
def JobResponse.to_dict (m : JobResponse) : Dict :=
  ((((m.additional_properties.insertOpt
    "jobs" (m.jobs.map (fun l => Value.vList (l.map (fun j => Value.vDict j.to_dict))))).insertOpt
    "page" m.page).insertOpt "pageSize" m.page_size).insertOpt
    "totalJobs" m.total_jobs).insertOpt "totalPages" m.total_pages

/-- `JobResponse.from_dict`: `jobs` goes through the `_jobs or []`
loop (absent becomes the empty list). -/
def JobResponse.from_dict (d : Dict) : Option JobResponse :=
  match parseObjList JobStatus.from_dict (d.lookup "jobs") with
  | none => none
  | some js =>
    some
      { jobs := some js
        page := d.lookup "page"
        page_size := d.lookup "pageSize"
        total_jobs := d.lookup "totalJobs"
        total_pages := d.lookup "totalPages"
        additional_properties :=
          ((((d.erase "jobs").erase "page").erase "pageSize").erase
            "totalJobs").erase "totalPages" }

theorem Dict.lookup_insert_self (d : Dict) (k : String) (v : Value) :
    Dict.lookup (Dict.insert d k v) k = some v := by
  rw [Dict.lookup_insert, if_pos rfl]

theorem Dict.lookup_insert_ne (d : Dict) (k : String) (v : Value) {q : String}
    (h : q ≠ k) : Dict.lookup (Dict.insert d k v) q = Dict.lookup d q := by
  rw [Dict.lookup_insert, if_neg h]

theorem Dict.insertOpt_none (d : Dict) (k : String) :
    Dict.insertOpt d k none = d := rfl

theorem Dict.lookup_insertOpt_self (d : Dict) (k : String) (v : Value) :
    Dict.lookup (Dict.insertOpt d k (some v)) k = some v :=
  Dict.lookup_insert_self d k v

theorem Dict.lookup_insertOpt_ne (d : Dict) (k : String) (v? : Option Value)
    {q : String} (h : q ≠ k) :
    Dict.lookup (Dict.insertOpt d k v?) q = Dict.lookup d q := by
  cases v? with
  | none => rfl
  | some v => exact Dict.lookup_insert_ne d k v h

theorem ProgressStage.ofValue_value (s : ProgressStage) :
    ProgressStage.ofValue (Value.vStr s.value) = some s := by
  cases s <;> rfl

theorem ProgressStage.ofValue_eq_some {v : Value} {s : ProgressStage} :
    ProgressStage.ofValue v = some s ↔ v = Value.vStr s.value := by
  constructor
  · intro h
    unfold ProgressStage.ofValue at h
    split at h <;> simp_all [ProgressStage.value] <;> cases h <;> rfl
  · intro h
    rw [h]
    exact ProgressStage.ofValue_value s

/-- Inversion for `parseStage`. -/
theorem parseStage_some {v? : Option Value} {st : Option ProgressStage}
    (h : parseStage v? = some st) :
    (v? = none → st = none) ∧
    (∀ v, v? = some v → ∃ s, ProgressStage.ofValue v = some s ∧ st = some s) := by
  cases v? with
  | none =>
    rw [parseStage] at h
    have hst := Option.some.inj h
    subst hst
    exact ⟨fun _ => rfl, fun v hv => by cases hv⟩
  | some v =>
    cases hov : ProgressStage.ofValue v with
    | none => rw [parseStage, hov] at h; cases h
    | some s =>
      rw [parseStage, hov] at h
      cases h
      refine ⟨fun hv => (nomatch hv), ?_⟩
      intro w hw
      cases hw
      exact ⟨s, hov, rfl⟩

/-- Skeleton inversion for `ProgressEvent.from_dict`: a successful parse
determines every field of the result from the input mapping. -/
theorem event_from_dict_fields {d : Dict} {e : ProgressEvent}
    (h : ProgressEvent.from_dict d = some e) :
    e.data = d.lookup "data" ∧ e.error = d.lookup "error" ∧
    e.message = d.lookup "message" ∧ e.progress = d.lookup "progress" ∧
    e.timestamp = d.lookup "timestamp" ∧
    parseStage (d.lookup "stage") = some e.stage ∧
    parseNested ProgressTrackDetails.from_dict (d.lookup "trackDetails")
      = some e.track_details ∧
    e.additional_properties =
      ((((((d.erase "data").erase "error").erase "message").erase
        "progress").erase "stage").erase "timestamp").erase "trackDetails" := by
  rw [ProgressEvent.from_dict] at h
  cases hps : parseStage (d.lookup "stage") with
  | none => rw [hps] at h; exact absurd h (by simp)
  | some st =>
    rw [hps] at h
    cases htd : parseNested ProgressTrackDetails.from_dict (d.lookup "trackDetails") with
    | none => rw [htd] at h; exact absurd h (by simp)
    | some td =>
      rw [htd] at h
      simp only [Option.some.injEq] at h
      subst h
      exact ⟨rfl, rfl, rfl, rfl, rfl, rfl, rfl, rfl⟩

/-- C4 — `ProgressEvent.from_dict` stage validation.  A value under the
`stage` key is accepted exactly when it is one of the six member
strings, and then yields the corresponding member; every other stage
value makes `from_dict` raise, and an absent key leaves the field at the
`UNSET` marker. -/
theorem claim4_progress_event_stage_validation :
    (∀ d : Dict, ∀ e : ProgressEvent, ProgressEvent.from_dict d = some e →
      (d.lookup "stage" = none → e.stage = none) ∧
      (∀ v, d.lookup "stage" = some v → ∃ s : ProgressStage,
        v = Value.vStr s.value ∧ e.stage = some s)) ∧
    (∀ d : Dict, ∀ v : Value, d.lookup "stage" = some v →
      (∀ s : ProgressStage, v ≠ Value.vStr s.value) →
      ProgressEvent.from_dict d = none) ∧
    (∀ s : ProgressStage, ∃ e : ProgressEvent,
      ProgressEvent.from_dict [("stage", Value.vStr s.value)] = some e ∧
      e.stage = some s) := by
  refine ⟨?_, ?_, ?_⟩
  · intro d e h
    have hh := event_from_dict_fields h
    have hst := parseStage_some hh.2.2.2.2.2.1
    refine ⟨hst.1, ?_⟩
    intro v hv
    obtain ⟨s, hov, hs⟩ := hst.2 v hv
    exact ⟨s, ProgressStage.ofValue_eq_some.mp hov, hs⟩
  · intro d v hv hbad
    rw [ProgressEvent.from_dict, hv]
    cases hov : ProgressStage.ofValue v with
    | none => rw [parseStage, hov]; rfl
    | some s => exact absurd (ProgressStage.ofValue_eq_some.mp hov) (hbad s)
  · intro s
    refine ⟨{ data := none, error := none, message := none, progress := none,
              stage := some s, timestamp := none, track_details := none,
              additional_properties := [] }, ?_, rfl⟩
    rw [ProgressEvent.from_dict]
    rw [show Dict.lookup [("stage", Value.vStr s.value)] "stage"
          = some (Value.vStr s.value) from by rw [Dict.lookup_cons, if_pos rfl]]
    rw [parseStage, ProgressStage.ofValue_value s]
    rfl

/-- C4 witness: the theorem applied at a concrete parse. -/
theorem claim4_witness :
    Dict.lookup [("stage", Value.vStr "downloading")] "stage"
        = some (Value.vStr "downloading") ∧
    (∃ s : ProgressStage, Value.vStr "downloading" = Value.vStr s.value ∧
      ({ data := none, error := none, message := none, progress := none,
         stage := some ProgressStage.downloading, timestamp := none,
         track_details := none, additional_properties := [] } : ProgressEvent).stage
        = some s) := by
  refine ⟨by decide, ?_⟩
  exact (claim4_progress_event_stage_validation.1
    [("stage", Value.vStr "downloading")] _ (by decide)).2 _ (by decide)

/-- C5 counterexample: a wire event carrying an `error` value at
`stage = downloading` is parsed verbatim — the parsed event has the
error field present and a non-error stage, refuting the claim that the
error field is present only on `stage = error`. -/
theorem claim5_counterexample :
    (ProgressEvent.from_dict
        [("error", Value.vStr "boom"), ("stage", Value.vStr "downloading")]).map
      (fun e => (e.error, e.stage))
      = some (some (Value.vStr "boom"), some ProgressStage.downloading) ∧
    ProgressStage.downloading ≠ ProgressStage.error := by decide

/-- C5 as amended: `ProgressEvent.from_dict` imposes no relation between
the error field and the stage — the parsed event's error field simply
equals the wire value under the `error` key (present exactly when that
key is present), whatever the stage is. -/
theorem claim5_error_field_passthrough (d : Dict) (e : ProgressEvent)
    (h : ProgressEvent.from_dict d = some e) : e.error = d.lookup "error" :=
  (event_from_dict_fields h).2.1

/-- C5 witness. -/
theorem claim5_witness :
    ProgressEvent.from_dict [("error", Value.vStr "boom")]
        = some { data := none, error := some (Value.vStr "boom"), message := none,
                 progress := none, stage := none, timestamp := none,
                 track_details := none, additional_properties := [] } ∧
    ({ data := none, error := some (Value.vStr "boom"), message := none,
       progress := none, stage := none, timestamp := none,
       track_details := none, additional_properties := [] } : ProgressEvent).error
      = Dict.lookup [("error", Value.vStr "boom")] "error" := by
  refine ⟨by decide, ?_⟩
  exact claim5_error_field_passthrough _ _ (by decide)

/-- The two required keys of `JobRequest.to_dict` are always present
and carry the named fields (they are written after the bag). -/
theorem JobRequest.to_dict_required (m : JobRequest) :
    (JobRequest.to_dict m).lookup "tracklist" = some m.tracklist ∧
    (JobRequest.to_dict m).lookup "url" = some m.url := by
  constructor
  · rw [JobRequest.to_dict,
      Dict.lookup_insertOpt_ne _ _ _ (by decide),
      Dict.lookup_insertOpt_ne _ _ _ (by decide),
      Dict.lookup_insert_ne _ _ _ (by decide),
      Dict.lookup_insert_self]
  · rw [JobRequest.to_dict,
      Dict.lookup_insertOpt_ne _ _ _ (by decide),
      Dict.lookup_insertOpt_ne _ _ _ (by decide),
      Dict.lookup_insert_self]

/-- C6 — `JobRequest` required and optional keys.  `to_dict` always
emits `tracklist` and `url` (with the field values); it emits
`fileExtension` / `maxConcurrentTasks` exactly when the corresponding
field is set, provided the additional-properties bag does not itself
carry those keys (it never does for an object built by the constructor
or by `from_dict`, which pops them).  `from_dict` succeeds exactly when
both required keys are present. -/
theorem claim6_job_request_keys :
    (∀ m : JobRequest,
      (JobRequest.to_dict m).lookup "tracklist" = some m.tracklist ∧
      (JobRequest.to_dict m).lookup "url" = some m.url) ∧
    (∀ m : JobRequest,
      m.additional_properties.lookup "fileExtension" = none →
      m.additional_properties.lookup "maxConcurrentTasks" = none →
      ((((JobRequest.to_dict m).lookup "fileExtension").isSome
          = m.file_extension.isSome) ∧
       (((JobRequest.to_dict m).lookup "maxConcurrentTasks").isSome
          = m.max_concurrent_tasks.isSome))) ∧
    (∀ d : Dict, (JobRequest.from_dict d).isSome
        = ((d.lookup "tracklist").isSome && (d.lookup "url").isSome)) := by
  refine ⟨?_, ?_, ?_⟩
  · exact JobRequest.to_dict_required
  · intro m hfe hmc
    constructor
    · rw [JobRequest.to_dict, Dict.lookup_insertOpt_ne _ _ _ (by decide)]
      cases hv : m.file_extension with
      | none =>
        rw [Dict.insertOpt_none,
          Dict.lookup_insert_ne _ _ _ (by decide),
          Dict.lookup_insert_ne _ _ _ (by decide), hfe]
      | some v => rw [Dict.lookup_insertOpt_self]
    · cases hv : m.max_concurrent_tasks with
      | none =>
        rw [JobRequest.to_dict, hv, Dict.insertOpt_none,
          Dict.lookup_insertOpt_ne _ _ _ (by decide),
          Dict.lookup_insert_ne _ _ _ (by decide),
          Dict.lookup_insert_ne _ _ _ (by decide), hmc]
      | some v => rw [JobRequest.to_dict, hv, Dict.lookup_insertOpt_self]
  · intro d
    rw [JobRequest.from_dict]
    cases ht : d.lookup "tracklist" with
    | none => simp
    | some t =>
      cases hu : d.lookup "url" with
      | none => simp
      | some u => simp

/-- C6 witness. -/
theorem claim6_witness :
    (Dict.lookup [] "fileExtension" = none ∧ Dict.lookup [] "maxConcurrentTasks" = none) ∧
    ((((JobRequest.to_dict
          { tracklist := Value.vStr "1. A - B", url := Value.vStr "http", file_extension := none,
            max_concurrent_tasks := none, additional_properties := [] }).lookup
        "fileExtension").isSome = (none : Option Value).isSome) ∧
     (((JobRequest.to_dict
          { tracklist := Value.vStr "1. A - B", url := Value.vStr "http", file_extension := none,
            max_concurrent_tasks := none, additional_properties := [] }).lookup
        "maxConcurrentTasks").isSome = (none : Option Value).isSome)) := by
  refine ⟨⟨rfl, rfl⟩, ?_⟩
  exact claim6_job_request_keys.2.1 _ rfl rfl

/-- C7 counterexample: a fully populated track serializes under the
snake_case keys of the generated model, so the camelCase names the
claim requires are absent from the output. -/
theorem claim7_counterexample :
    (DomainTrack.to_dict
        { artist := some (Value.vStr "A"), end_time := some (Value.vStr "03:30"),
          name := some (Value.vStr "X"), start_time := some (Value.vStr "00:00"),
          track_number := some (Value.vNum 1), additional_properties := [] }).lookup
      "startTime" = none ∧
    (DomainTrack.to_dict
        { artist := some (Value.vStr "A"), end_time := some (Value.vStr "03:30"),
          name := some (Value.vStr "X"), start_time := some (Value.vStr "00:00"),
          track_number := some (Value.vNum 1), additional_properties := [] }).lookup
      "endTime" = none ∧
    (DomainTrack.to_dict
        { artist := some (Value.vStr "A"), end_time := some (Value.vStr "03:30"),
          name := some (Value.vStr "X"), start_time := some (Value.vStr "00:00"),
          track_number := some (Value.vNum 1), additional_properties := [] }).lookup
      "trackNumber" = none := by decide

/-- C7 as amended: for every track with all five fields set and an
empty additional-properties bag, `to_dict` produces exactly the five
pairs, under the snake_case wire names `artist`, `end_time`, `name`,
`start_time`, `track_number`. -/
theorem claim7_track_to_dict (a e n s t : Value) :
    DomainTrack.to_dict
        { artist := some a, end_time := some e, name := some n,
          start_time := some s, track_number := some t,
          additional_properties := [] }
      = [("artist", a), ("end_time", e), ("name", n), ("start_time", s),
         ("track_number", t)] := by
  rfl

/-- C10 — set fields always win over colliding additional properties:
for the three models cited, every documented wire key whose named field
is set serializes to that field's value, whatever
`additional_properties` holds — all ten `JobStatus` keys, all four
`JobRequest` keys and all seven `ProgressEvent` keys are covered. -/
theorem claim10_fields_override_additional :
    (∀ m : JobStatus, ∀ v : Value,
      (m.end_time = some v → (JobStatus.to_dict m).lookup "endTime" = some v) ∧
      (m.error = some v → (JobStatus.to_dict m).lookup "error" = some v) ∧
      (m.id = some v → (JobStatus.to_dict m).lookup "id" = some v) ∧
      (m.message = some v → (JobStatus.to_dict m).lookup "message" = some v) ∧
      (m.progress = some v → (JobStatus.to_dict m).lookup "progress" = some v) ∧
      (m.results = some v → (JobStatus.to_dict m).lookup "results" = some v) ∧
      (m.start_time = some v → (JobStatus.to_dict m).lookup "startTime" = some v) ∧
      (m.status = some v → (JobStatus.to_dict m).lookup "status" = some v)) ∧
    (∀ m : JobStatus, ∀ l : List ProgressEvent, m.events = some l →
      (JobStatus.to_dict m).lookup "events"
        = some (Value.vList (l.map (fun e => Value.vDict e.to_dict)))) ∧
    (∀ m : JobStatus, ∀ tl : DomainTracklist, m.tracklist = some tl →
      (JobStatus.to_dict m).lookup "tracklist"
        = some (Value.vDict tl.to_dict)) ∧
    (∀ m : JobRequest,
      (JobRequest.to_dict m).lookup "tracklist" = some m.tracklist ∧
      (JobRequest.to_dict m).lookup "url" = some m.url) ∧
    (∀ m : JobRequest, ∀ v : Value,
      (m.file_extension = some v →
        (JobRequest.to_dict m).lookup "fileExtension" = some v) ∧
      (m.max_concurrent_tasks = some v →
        (JobRequest.to_dict m).lookup "maxConcurrentTasks" = some v)) ∧
    (∀ m : ProgressEvent, ∀ v : Value,
      (m.data = some v → (ProgressEvent.to_dict m).lookup "data" = some v) ∧
      (m.error = some v → (ProgressEvent.to_dict m).lookup "error" = some v) ∧
      (m.message = some v → (ProgressEvent.to_dict m).lookup "message" = some v) ∧
      (m.progress = some v → (ProgressEvent.to_dict m).lookup "progress" = some v) ∧
      (m.timestamp = some v → (ProgressEvent.to_dict m).lookup "timestamp" = some v)) ∧
    (∀ m : ProgressEvent, ∀ s : ProgressStage, m.stage = some s →
      (ProgressEvent.to_dict m).lookup "stage"
        = some (Value.vStr s.value)) ∧
    (∀ m : ProgressEvent, ∀ td : ProgressTrackDetails, m.track_details = some td →
      (ProgressEvent.to_dict m).lookup "trackDetails"
        = some (Value.vDict td.to_dict)) := by
  refine ⟨?_, ?_, ?_, ?_, ?_, ?_, ?_, ?_⟩
  · intro m v
    refine ⟨fun hv => ?_, fun hv => ?_, fun hv => ?_, fun hv => ?_,
      fun hv => ?_, fun hv => ?_, fun hv => ?_, fun hv => ?_⟩ <;>
      simp [JobStatus.to_dict, hv, Dict.lookup_insertOpt_ne, Dict.lookup_insertOpt_self]
  · intro m l hv
    simp [JobStatus.to_dict, hv, Dict.lookup_insertOpt_ne, Dict.lookup_insertOpt_self]
  · intro m tl hv
    simp [JobStatus.to_dict, hv, Dict.lookup_insertOpt_ne, Dict.lookup_insertOpt_self]
  · exact JobRequest.to_dict_required
  · intro m v
    refine ⟨fun hv => ?_, fun hv => ?_⟩ <;>
      simp [JobRequest.to_dict, hv, Dict.lookup_insertOpt_ne,
        Dict.lookup_insertOpt_self]
  · intro m v
    refine ⟨fun hv => ?_, fun hv => ?_, fun hv => ?_, fun hv => ?_, fun hv => ?_⟩ <;>
      simp [ProgressEvent.to_dict, hv, Dict.lookup_insertOpt_ne, Dict.lookup_insertOpt_self]
  · intro m s hv
    simp [ProgressEvent.to_dict, hv, Dict.lookup_insertOpt_ne, Dict.lookup_insertOpt_self]
  · intro m td hv
    simp [ProgressEvent.to_dict, hv, Dict.lookup_insertOpt_ne, Dict.lookup_insertOpt_self]

/-- The documented wire keys of `DomainTrack`. -/
def DomainTrack.wireKeys : List String :=
  ["artist", "end_time", "name", "start_time", "track_number"]

/-- The documented wire keys of `ProgressTrackDetails`. -/
def ProgressTrackDetails.wireKeys : List String :=
  ["currentTrack", "processedTracks", "totalTracks", "trackNumber"]

/-- The documented wire keys of `DomainTracklist`. -/
def DomainTracklist.wireKeys : List String :=
  ["artist", "genre", "name", "tracks", "year"]

/-- The documented wire keys of `ProgressEvent`. -/
def ProgressEvent.wireKeys : List String :=
  ["data", "error", "message", "progress", "stage", "timestamp", "trackDetails"]

/-- The documented wire keys of `JobStatus`. -/
def JobStatus.wireKeys : List String :=
  ["endTime", "error", "events", "id", "message", "progress", "results",
   "startTime", "status", "tracklist"]

/-- The documented wire keys of `JobRequest`. -/
def JobRequest.wireKeys : List String :=
  ["tracklist", "url", "fileExtension", "maxConcurrentTasks"]

/-- The documented wire keys of `JobResponse`. -/
def JobResponse.wireKeys : List String :=
  ["jobs", "page", "pageSize", "totalJobs", "totalPages"]

/-- Inversion for `DomainTracklist.from_dict`. -/
theorem tracklist_from_dict_fields {d : Dict} {m : DomainTracklist}
    (h : DomainTracklist.from_dict d = some m) :
    m.artist = d.lookup "artist" ∧ m.genre = d.lookup "genre" ∧
    m.name = d.lookup "name" ∧ m.year = d.lookup "year" ∧
    (∃ ts, parseObjList DomainTrack.from_dict (d.lookup "tracks") = some ts ∧
      m.tracks = some ts) ∧
    m.additional_properties =
      ((((d.erase "artist").erase "genre").erase "name").erase
        "tracks").erase "year" := by
  rw [DomainTracklist.from_dict] at h
  cases hts : parseObjList DomainTrack.from_dict (d.lookup "tracks") with
  | none => rw [hts] at h; exact absurd h (by simp)
  | some ts =>
    rw [hts] at h
    simp only [Option.some.injEq] at h
    subst h
    exact ⟨rfl, rfl, rfl, rfl, ⟨ts, rfl, rfl⟩, rfl⟩

/-- Inversion for `JobStatus.from_dict`. -/
theorem jobStatus_from_dict_fields {d : Dict} {m : JobStatus}
    (h : JobStatus.from_dict d = some m) :
    m.end_time = d.lookup "endTime" ∧ m.error = d.lookup "error" ∧
    m.id = d.lookup "id" ∧ m.message = d.lookup "message" ∧
    m.progress = d.lookup "progress" ∧ m.results = d.lookup "results" ∧
    m.start_time = d.lookup "startTime" ∧ m.status = d.lookup "status" ∧
    (∃ evs, parseObjList ProgressEvent.from_dict (d.lookup "events") = some evs ∧
      m.events = some evs) ∧
    parseNested DomainTracklist.from_dict (d.lookup "tracklist") = some m.tracklist ∧
    m.additional_properties =
      (((((((((d.erase "endTime").erase "error").erase "events").erase
        "id").erase "message").erase "progress").erase "results").erase
        "startTime").erase "status").erase "tracklist" := by
  rw [JobStatus.from_dict] at h
  cases hev : parseObjList ProgressEvent.from_dict (d.lookup "events") with
  | none => rw [hev] at h; exact absurd h (by simp)
  | some evs =>
    rw [hev] at h
    cases htl : parseNested DomainTracklist.from_dict (d.lookup "tracklist") with
    | none => rw [htl] at h; exact absurd h (by simp)
    | some tl =>
      rw [htl] at h
      simp only [Option.some.injEq] at h
      subst h
      exact ⟨rfl, rfl, rfl, rfl, rfl, rfl, rfl, rfl, ⟨evs, rfl, rfl⟩, rfl, rfl⟩

/-- Inversion for `JobRequest.from_dict`. -/
theorem jobRequest_from_dict_fields {d : Dict} {m : JobRequest}
    (h : JobRequest.from_dict d = some m) :
    d.lookup "tracklist" = some m.tracklist ∧ d.lookup "url" = some m.url ∧
    m.file_extension = d.lookup "fileExtension" ∧
    m.max_concurrent_tasks = d.lookup "maxConcurrentTasks" ∧
    m.additional_properties =
      (((d.erase "tracklist").erase "url").erase "fileExtension").erase
        "maxConcurrentTasks" := by
  rw [JobRequest.from_dict] at h
  cases ht : d.lookup "tracklist" with
  | none => rw [ht] at h; exact absurd h (by simp)
  | some t =>
    rw [ht] at h
    cases hu : d.lookup "url" with
    | none => rw [hu] at h; exact absurd h (by simp)
    | some u =>
      rw [hu] at h
      simp only [Option.some.injEq] at h
      subst h
      exact ⟨rfl, rfl, rfl, rfl, rfl⟩

/-- Inversion for `JobResponse.from_dict`. -/
theorem jobResponse_from_dict_fields {d : Dict} {m : JobResponse}
    (h : JobResponse.from_dict d = some m) :
    m.page = d.lookup "page" ∧ m.page_size = d.lookup "pageSize" ∧
    m.total_jobs = d.lookup "totalJobs" ∧ m.total_pages = d.lookup "totalPages" ∧
    (∃ js, parseObjList JobStatus.from_dict (d.lookup "jobs") = some js ∧
      m.jobs = some js) ∧
    m.additional_properties =
      ((((d.erase "jobs").erase "page").erase "pageSize").erase
        "totalJobs").erase "totalPages" := by
  rw [JobResponse.from_dict] at h
  cases hjs : parseObjList JobStatus.from_dict (d.lookup "jobs") with
  | none => rw [hjs] at h; exact absurd h (by simp)
  | some js =>
    rw [hjs] at h
    simp only [Option.some.injEq] at h
    subst h
    exact ⟨rfl, rfl, rfl, rfl, ⟨js, rfl, rfl⟩, rfl⟩

/-- C2 — unknown wire keys survive the round trip: for every model
class, `from_dict` stores every key outside the documented wire keys,
with its value unchanged, in `additional_properties`, and `to_dict`
re-emits each such pair. -/
theorem claim2_unknown_keys_survive :
    (∀ (d : Dict) (k : String) (m : DomainTrack),
      DomainTrack.from_dict d = some m → k ∉ DomainTrack.wireKeys →
      m.additional_properties.lookup k = d.lookup k ∧
      (DomainTrack.to_dict m).lookup k = d.lookup k) ∧
    (∀ (d : Dict) (k : String) (m : ProgressTrackDetails),
      ProgressTrackDetails.from_dict d = some m → k ∉ ProgressTrackDetails.wireKeys →
      m.additional_properties.lookup k = d.lookup k ∧
      (ProgressTrackDetails.to_dict m).lookup k = d.lookup k) ∧
    (∀ (d : Dict) (k : String) (m : DomainTracklist),
      DomainTracklist.from_dict d = some m → k ∉ DomainTracklist.wireKeys →
      m.additional_properties.lookup k = d.lookup k ∧
      (DomainTracklist.to_dict m).lookup k = d.lookup k) ∧
    (∀ (d : Dict) (k : String) (m : ProgressEvent),
      ProgressEvent.from_dict d = some m → k ∉ ProgressEvent.wireKeys →
      m.additional_properties.lookup k = d.lookup k ∧
      (ProgressEvent.to_dict m).lookup k = d.lookup k) ∧
    (∀ (d : Dict) (k : String) (m : JobStatus),
      JobStatus.from_dict d = some m → k ∉ JobStatus.wireKeys →
      m.additional_properties.lookup k = d.lookup k ∧
      (JobStatus.to_dict m).lookup k = d.lookup k) ∧
    (∀ (d : Dict) (k : String) (m : JobRequest),
      JobRequest.from_dict d = some m → k ∉ JobRequest.wireKeys →
      m.additional_properties.lookup k = d.lookup k ∧
      (JobRequest.to_dict m).lookup k = d.lookup k) ∧
    (∀ (d : Dict) (k : String) (m : JobResponse),
      JobResponse.from_dict d = some m → k ∉ JobResponse.wireKeys →
      m.additional_properties.lookup k = d.lookup k ∧
      (JobResponse.to_dict m).lookup k = d.lookup k) := by
  refine ⟨?_, ?_, ?_, ?_, ?_, ?_, ?_⟩
  · intro d k m h hk
    simp only [DomainTrack.wireKeys, List.mem_cons, List.not_mem_nil, or_false,
      not_or] at hk
    obtain ⟨n1, n2, n3, n4, n5⟩ := hk
    have hm := Option.some.inj h
    subst hm
    have ha : (((((d.erase "artist").erase "end_time").erase "name").erase
        "start_time").erase "track_number").lookup k = d.lookup k := by
      simp [Dict.lookup_erase, n1, n2, n3, n4, n5]
    refine ⟨ha, ?_⟩
    rw [DomainTrack.to_dict]
    rw [Dict.lookup_insertOpt_ne _ _ _ n5, Dict.lookup_insertOpt_ne _ _ _ n4,
      Dict.lookup_insertOpt_ne _ _ _ n3, Dict.lookup_insertOpt_ne _ _ _ n2,
      Dict.lookup_insertOpt_ne _ _ _ n1]
    exact ha
  · intro d k m h hk
    simp only [ProgressTrackDetails.wireKeys, List.mem_cons, List.not_mem_nil,
      or_false, not_or] at hk
    obtain ⟨n1, n2, n3, n4⟩ := hk
    have hm := Option.some.inj h
    subst hm
    have ha : ((((d.erase "currentTrack").erase "processedTracks").erase
        "totalTracks").erase "trackNumber").lookup k = d.lookup k := by
      simp [Dict.lookup_erase, n1, n2, n3, n4]
    refine ⟨ha, ?_⟩
    rw [ProgressTrackDetails.to_dict]
    rw [Dict.lookup_insertOpt_ne _ _ _ n4, Dict.lookup_insertOpt_ne _ _ _ n3,
      Dict.lookup_insertOpt_ne _ _ _ n2, Dict.lookup_insertOpt_ne _ _ _ n1]
    exact ha
  · intro d k m h hk
    simp only [DomainTracklist.wireKeys, List.mem_cons, List.not_mem_nil,
      or_false, not_or] at hk
    obtain ⟨n1, n2, n3, n4, n5⟩ := hk
    obtain ⟨_, _, _, _, _, hadd⟩ := tracklist_from_dict_fields h
    have ha : m.additional_properties.lookup k = d.lookup k := by
      rw [hadd]
      simp [Dict.lookup_erase, n1, n2, n3, n4, n5]
    refine ⟨ha, ?_⟩
    rw [DomainTracklist.to_dict]
    rw [Dict.lookup_insertOpt_ne _ _ _ n5, Dict.lookup_insertOpt_ne _ _ _ n4,
      Dict.lookup_insertOpt_ne _ _ _ n3, Dict.lookup_insertOpt_ne _ _ _ n2,
      Dict.lookup_insertOpt_ne _ _ _ n1]
    exact ha
  · intro d k m h hk
    simp only [ProgressEvent.wireKeys, List.mem_cons, List.not_mem_nil,
      or_false, not_or] at hk
    obtain ⟨n1, n2, n3, n4, n5, n6, n7⟩ := hk
    have hadd := (event_from_dict_fields h).2.2.2.2.2.2.2
    have ha : m.additional_properties.lookup k = d.lookup k := by
      rw [hadd]
      simp [Dict.lookup_erase, n1, n2, n3, n4, n5, n6, n7]
    refine ⟨ha, ?_⟩
    rw [ProgressEvent.to_dict]
    rw [Dict.lookup_insertOpt_ne _ _ _ n7, Dict.lookup_insertOpt_ne _ _ _ n6,
      Dict.lookup_insertOpt_ne _ _ _ n5, Dict.lookup_insertOpt_ne _ _ _ n4,
      Dict.lookup_insertOpt_ne _ _ _ n3, Dict.lookup_insertOpt_ne _ _ _ n2,
      Dict.lookup_insertOpt_ne _ _ _ n1]
    exact ha
  · intro d k m h hk
    simp only [JobStatus.wireKeys, List.mem_cons, List.not_mem_nil,
      or_false, not_or] at hk
    obtain ⟨n1, n2, n3, n4, n5, n6, n7, n8, n9, n10⟩ := hk
    have hadd := (jobStatus_from_dict_fields h).2.2.2.2.2.2.2.2.2.2
    have ha : m.additional_properties.lookup k = d.lookup k := by
      rw [hadd]
      simp [Dict.lookup_erase, n1, n2, n3, n4, n5, n6, n7, n8, n9, n10]
    refine ⟨ha, ?_⟩
    rw [JobStatus.to_dict]
    rw [Dict.lookup_insertOpt_ne _ _ _ n10, Dict.lookup_insertOpt_ne _ _ _ n9,
      Dict.lookup_insertOpt_ne _ _ _ n8, Dict.lookup_insertOpt_ne _ _ _ n7,
      Dict.lookup_insertOpt_ne _ _ _ n6, Dict.lookup_insertOpt_ne _ _ _ n5,
      Dict.lookup_insertOpt_ne _ _ _ n4, Dict.lookup_insertOpt_ne _ _ _ n3,
      Dict.lookup_insertOpt_ne _ _ _ n2, Dict.lookup_insertOpt_ne _ _ _ n1]
    exact ha
  · intro d k m h hk
    simp only [JobRequest.wireKeys, List.mem_cons, List.not_mem_nil,
      or_false, not_or] at hk
    obtain ⟨n1, n2, n3, n4⟩ := hk
    have hadd := (jobRequest_from_dict_fields h).2.2.2.2
    have ha : m.additional_properties.lookup k = d.lookup k := by
      rw [hadd]
      simp [Dict.lookup_erase, n1, n2, n3, n4]
    refine ⟨ha, ?_⟩
    rw [JobRequest.to_dict]
    rw [Dict.lookup_insertOpt_ne _ _ _ n4, Dict.lookup_insertOpt_ne _ _ _ n3,
      Dict.lookup_insert_ne _ _ _ n2, Dict.lookup_insert_ne _ _ _ n1]
    exact ha
  · intro d k m h hk
    simp only [JobResponse.wireKeys, List.mem_cons, List.not_mem_nil,
      or_false, not_or] at hk
    obtain ⟨n1, n2, n3, n4, n5⟩ := hk
    have hadd := (jobResponse_from_dict_fields h).2.2.2.2.2
    have ha : m.additional_properties.lookup k = d.lookup k := by
      rw [hadd]
      simp [Dict.lookup_erase, n1, n2, n3, n4, n5]
    refine ⟨ha, ?_⟩
    rw [JobResponse.to_dict]
    rw [Dict.lookup_insertOpt_ne _ _ _ n5, Dict.lookup_insertOpt_ne _ _ _ n4,
      Dict.lookup_insertOpt_ne _ _ _ n3, Dict.lookup_insertOpt_ne _ _ _ n2,
      Dict.lookup_insertOpt_ne _ _ _ n1]
    exact ha

theorem Dict.lookup_insertOpt_or (base : Dict) (k : String) (v? : Option Value) :
    (Dict.insertOpt base k v?).lookup k = v?.or (base.lookup k) := by
  rw [Dict.lookup_insertOpt, if_pos rfl]

/-- Element-wise round trip for object arrays: when every element is a
mapping accepted (and restored verbatim) by the item codec, `parseAll`
succeeds and re-serializing restores the original array. -/
theorem parseAll_roundtrip {α : Type} (P : Dict → Bool) (f : Dict → Option α)
    (g : α → Dict)
    (hItem : ∀ dd : Dict, P dd = true → ∃ a, f dd = some a ∧ g a = dd) :
    ∀ l : List Value,
      (l.all fun x => match x with | Value.vDict dd => P dd | _ => false) = true →
      ∃ as, parseAll f l = some as ∧
        as.map (fun a => Value.vDict (g a)) = l := by
  intro l
  induction l with
  | nil => intro _; exact ⟨[], rfl, rfl⟩
  | cons x xs ih =>
    intro hall
    rw [List.all_cons, Bool.and_eq_true] at hall
    obtain ⟨hx, hxs⟩ := hall
    cases x with
    | vDict dd =>
      obtain ⟨a, hfa, hga⟩ := hItem dd hx
      obtain ⟨as, hps, hmap⟩ := ih hxs
      refine ⟨a :: as, ?_, ?_⟩
      · rw [parseAll]
        simp [Value.asDict, hfa, hps]
      · simp [hmap, hga]
    | vNull => exact Bool.noConfusion hx
    | vBool b => exact Bool.noConfusion hx
    | vNum n => exact Bool.noConfusion hx
    | vStr s => exact Bool.noConfusion hx
    | vList l2 => exact Bool.noConfusion hx

/-- Mappings on which `DomainTrack.from_dict ∘ to_dict` is the
identity: canonical form and documented keys only (the track codec
never inspects the values). -/
def DomainTrack.WT (d : Dict) : Bool :=
  Dict.keysSorted d && d.all (fun a => decide (a.1 ∈ DomainTrack.wireKeys))

/-- Round-trippable `ProgressTrackDetails` mappings. -/
def ProgressTrackDetails.WT (d : Dict) : Bool :=
  Dict.keysSorted d && d.all (fun a => decide (a.1 ∈ ProgressTrackDetails.wireKeys))

/-- Round-trippable `DomainTracklist` mappings: the `tracks` key must be
present (an absent key is re-serialized as an empty list) and hold an
array of round-trippable track mappings. -/
def DomainTracklist.WT (d : Dict) : Bool :=
  Dict.keysSorted d && d.all (fun a => decide (a.1 ∈ DomainTracklist.wireKeys)) &&
  (match d.lookup "tracks" with
   | some (Value.vList l) =>
     l.all fun x => match x with | Value.vDict dd => DomainTrack.WT dd | _ => false
   | _ => false)

/-- Round-trippable `ProgressEvent` mappings: a present `stage` must be
a member string, a present `trackDetails` a round-trippable mapping. -/
def ProgressEvent.WT (d : Dict) : Bool :=
  Dict.keysSorted d && d.all (fun a => decide (a.1 ∈ ProgressEvent.wireKeys)) &&
  (match d.lookup "stage" with
   | none => true
   | some v => (ProgressStage.ofValue v).isSome) &&
  (match d.lookup "trackDetails" with
   | none => true
   | some (Value.vDict dd) => ProgressTrackDetails.WT dd
   | some _ => false)

/-- Round-trippable `JobStatus` mappings: `events` must be present with
round-trippable elements; `tracklist`, when present, round-trippable. -/
def JobStatus.WT (d : Dict) : Bool :=
  Dict.keysSorted d && d.all (fun a => decide (a.1 ∈ JobStatus.wireKeys)) &&
  (match d.lookup "events" with
   | some (Value.vList l) =>
     l.all fun x => match x with | Value.vDict dd => ProgressEvent.WT dd | _ => false
   | _ => false) &&
  (match d.lookup "tracklist" with
   | none => true
   | some (Value.vDict dd) => DomainTracklist.WT dd
   | some _ => false)

/-- Round-trippable `JobRequest` mappings: the two required keys must be
present. -/
def JobRequest.WT (d : Dict) : Bool :=
  Dict.keysSorted d && d.all (fun a => decide (a.1 ∈ JobRequest.wireKeys)) &&
  (d.lookup "tracklist").isSome && (d.lookup "url").isSome

/-- Round-trippable `JobResponse` mappings: `jobs` must be present with
round-trippable elements. -/
def JobResponse.WT (d : Dict) : Bool :=
  Dict.keysSorted d && d.all (fun a => decide (a.1 ∈ JobResponse.wireKeys)) &&
  (match d.lookup "jobs" with
   | some (Value.vList l) =>
     l.all fun x => match x with | Value.vDict dd => JobStatus.WT dd | _ => false
   | _ => false)

/-- `DomainTrack` round trip. -/
theorem track_roundtrip {d : Dict} (h : DomainTrack.WT d = true) :
    ∃ m, DomainTrack.from_dict d = some m ∧ DomainTrack.to_dict m = d := by
  rw [DomainTrack.WT, Bool.and_eq_true] at h
  have hcanon : Dict.Canon d := Dict.keysSorted_iff_canon.mp h.1
  refine ⟨_, rfl, ?_⟩
  have hca : Dict.Canon (((((d.erase "artist").erase "end_time").erase
      "name").erase "start_time").erase "track_number") :=
    Dict.canon_erase (Dict.canon_erase (Dict.canon_erase (Dict.canon_erase
      (Dict.canon_erase hcanon _) _) _) _) _
  refine Dict.ext ?_ hcanon ?_
  · exact Dict.canon_insertOpt (Dict.canon_insertOpt (Dict.canon_insertOpt
      (Dict.canon_insertOpt (Dict.canon_insertOpt hca _ _) _ _) _ _) _ _) _ _
  · intro k
    rcases eq_or_ne k "artist" with rfl | h1
    · simp [DomainTrack.to_dict, Dict.lookup_insertOpt, Dict.lookup_erase]
    rcases eq_or_ne k "end_time" with rfl | h2
    · simp [DomainTrack.to_dict, Dict.lookup_insertOpt, Dict.lookup_erase]
    rcases eq_or_ne k "name" with rfl | h3
    · simp [DomainTrack.to_dict, Dict.lookup_insertOpt, Dict.lookup_erase]
    rcases eq_or_ne k "start_time" with rfl | h4
    · simp [DomainTrack.to_dict, Dict.lookup_insertOpt, Dict.lookup_erase]
    rcases eq_or_ne k "track_number" with rfl | h5
    · simp [DomainTrack.to_dict, Dict.lookup_insertOpt, Dict.lookup_erase]
    simp [DomainTrack.to_dict, Dict.lookup_insertOpt, Dict.lookup_erase,
      h1, h2, h3, h4, h5]

/-- `ProgressTrackDetails` round trip. -/
theorem trackDetails_roundtrip {d : Dict}
    (h : ProgressTrackDetails.WT d = true) :
    ∃ m, ProgressTrackDetails.from_dict d = some m ∧
      ProgressTrackDetails.to_dict m = d := by
  rw [ProgressTrackDetails.WT, Bool.and_eq_true] at h
  have hcanon : Dict.Canon d := Dict.keysSorted_iff_canon.mp h.1
  refine ⟨_, rfl, ?_⟩
  have hca : Dict.Canon ((((d.erase "currentTrack").erase
      "processedTracks").erase "totalTracks").erase "trackNumber") :=
    Dict.canon_erase (Dict.canon_erase (Dict.canon_erase
      (Dict.canon_erase hcanon _) _) _) _
  refine Dict.ext ?_ hcanon ?_
  · exact Dict.canon_insertOpt (Dict.canon_insertOpt (Dict.canon_insertOpt
      (Dict.canon_insertOpt hca _ _) _ _) _ _) _ _
  · intro k
    rcases eq_or_ne k "currentTrack" with rfl | h1
    · simp [ProgressTrackDetails.to_dict, Dict.lookup_insertOpt, Dict.lookup_erase]
    rcases eq_or_ne k "processedTracks" with rfl | h2
    · simp [ProgressTrackDetails.to_dict, Dict.lookup_insertOpt, Dict.lookup_erase]
    rcases eq_or_ne k "totalTracks" with rfl | h3
    · simp [ProgressTrackDetails.to_dict, Dict.lookup_insertOpt, Dict.lookup_erase]
    rcases eq_or_ne k "trackNumber" with rfl | h4
    · simp [ProgressTrackDetails.to_dict, Dict.lookup_insertOpt, Dict.lookup_erase]
    simp [ProgressTrackDetails.to_dict, Dict.lookup_insertOpt, Dict.lookup_erase,
      h1, h2, h3, h4]

/-- `DomainTracklist` round trip (the `tracks` key present and
well-typed by `WT`). -/
theorem tracklist_roundtrip {d : Dict} (h : DomainTracklist.WT d = true) :
    ∃ m, DomainTracklist.from_dict d = some m ∧
      DomainTracklist.to_dict m = d := by
  rw [DomainTracklist.WT, Bool.and_eq_true, Bool.and_eq_true] at h
  obtain ⟨⟨hsk, hkeys⟩, htr⟩ := h
  have hcanon : Dict.Canon d := Dict.keysSorted_iff_canon.mp hsk
  cases hv : d.lookup "tracks" with
  | none => rw [hv] at htr; exact Bool.noConfusion htr
  | some v =>
    rw [hv] at htr
    cases v with
    | vNull => exact Bool.noConfusion htr
    | vBool b => exact Bool.noConfusion htr
    | vNum n => exact Bool.noConfusion htr
    | vStr s => exact Bool.noConfusion htr
    | vDict dd => exact Bool.noConfusion htr
    | vList l =>
      obtain ⟨ts, hps, hmap⟩ :=
        parseAll_roundtrip DomainTrack.WT DomainTrack.from_dict
          DomainTrack.to_dict (fun dd hdd => track_roundtrip hdd) l htr
      have hfd : DomainTracklist.from_dict d = some
          { artist := d.lookup "artist", genre := d.lookup "genre",
            name := d.lookup "name", tracks := some ts, year := d.lookup "year",
            additional_properties :=
              ((((d.erase "artist").erase "genre").erase "name").erase
                "tracks").erase "year" } := by
        rw [DomainTracklist.from_dict, hv]
        rw [show parseObjList DomainTrack.from_dict (some (Value.vList l))
              = parseAll DomainTrack.from_dict l from rfl, hps]
      refine ⟨_, hfd, ?_⟩
      have hca : Dict.Canon (((((d.erase "artist").erase "genre").erase
          "name").erase "tracks").erase "year") :=
        Dict.canon_erase (Dict.canon_erase (Dict.canon_erase (Dict.canon_erase
          (Dict.canon_erase hcanon _) _) _) _) _
      refine Dict.ext ?_ hcanon ?_
      · exact Dict.canon_insertOpt (Dict.canon_insertOpt (Dict.canon_insertOpt
          (Dict.canon_insertOpt (Dict.canon_insertOpt hca _ _) _ _) _ _) _ _) _ _
      · intro k
        rcases eq_or_ne k "artist" with rfl | h1
        · simp [DomainTracklist.to_dict, Dict.lookup_insertOpt, Dict.lookup_erase]
        rcases eq_or_ne k "genre" with rfl | h2
        · simp [DomainTracklist.to_dict, Dict.lookup_insertOpt, Dict.lookup_erase]
        rcases eq_or_ne k "name" with rfl | h3
        · simp [DomainTracklist.to_dict, Dict.lookup_insertOpt, Dict.lookup_erase]
        rcases eq_or_ne k "tracks" with rfl | h4
        · simp [DomainTracklist.to_dict, Dict.lookup_insertOpt, Dict.lookup_erase,
            hv, hmap]
        rcases eq_or_ne k "year" with rfl | h5
        · simp [DomainTracklist.to_dict, Dict.lookup_insertOpt, Dict.lookup_erase]
        simp [DomainTracklist.to_dict, Dict.lookup_insertOpt, Dict.lookup_erase,
          h1, h2, h3, h4, h5]

/-- `ProgressEvent` round trip. -/
theorem event_roundtrip {d : Dict} (h : ProgressEvent.WT d = true) :
    ∃ m, ProgressEvent.from_dict d = some m ∧ ProgressEvent.to_dict m = d := by
  rw [ProgressEvent.WT, Bool.and_eq_true, Bool.and_eq_true, Bool.and_eq_true] at h
  obtain ⟨⟨⟨hsk, hkeys⟩, hst⟩, htd⟩ := h
  have hcanon : Dict.Canon d := Dict.keysSorted_iff_canon.mp hsk
  have hstage : ∃ st, parseStage (d.lookup "stage") = some st ∧
      st.map (fun s => Value.vStr s.value) = d.lookup "stage" := by
    cases hv : d.lookup "stage" with
    | none => exact ⟨none, rfl, rfl⟩
    | some v =>
      have hst2 : (ProgressStage.ofValue v).isSome = true := by
        rw [hv] at hst
        exact hst
      cases hov : ProgressStage.ofValue v with
      | none => rw [hov] at hst2; exact Bool.noConfusion hst2
      | some s =>
        refine ⟨some s, ?_, ?_⟩
        · rw [parseStage, hov]; rfl
        · simp [ProgressStage.ofValue_eq_some.mp hov]
  obtain ⟨st, hpst, hstv⟩ := hstage
  have htdp : ∃ td,
      parseNested ProgressTrackDetails.from_dict (d.lookup "trackDetails")
        = some td ∧
      td.map (fun x => Value.vDict (ProgressTrackDetails.to_dict x))
        = d.lookup "trackDetails" := by
    cases hv : d.lookup "trackDetails" with
    | none => exact ⟨none, rfl, rfl⟩
    | some v =>
      rw [hv] at htd
      cases v with
      | vNull => exact Bool.noConfusion htd
      | vBool b => exact Bool.noConfusion htd
      | vNum n => exact Bool.noConfusion htd
      | vStr s => exact Bool.noConfusion htd
      | vList l2 => exact Bool.noConfusion htd
      | vDict dd =>
        obtain ⟨m0, hfd0, htd0⟩ := trackDetails_roundtrip htd
        refine ⟨some m0, ?_, ?_⟩
        · rw [parseNested]
          simp [Value.asDict, hfd0]
        · simp [htd0]
  obtain ⟨td, hptd, htdv⟩ := htdp
  have hfd : ProgressEvent.from_dict d = some
      { data := d.lookup "data", error := d.lookup "error",
        message := d.lookup "message", progress := d.lookup "progress",
        stage := st, timestamp := d.lookup "timestamp", track_details := td,
        additional_properties :=
          ((((((d.erase "data").erase "error").erase "message").erase
            "progress").erase "stage").erase "timestamp").erase "trackDetails" } := by
    rw [ProgressEvent.from_dict, hpst, hptd]
  refine ⟨_, hfd, ?_⟩
  have hca : Dict.Canon (((((((d.erase "data").erase "error").erase
      "message").erase "progress").erase "stage").erase "timestamp").erase
      "trackDetails") :=
    Dict.canon_erase (Dict.canon_erase (Dict.canon_erase (Dict.canon_erase
      (Dict.canon_erase (Dict.canon_erase (Dict.canon_erase hcanon _) _) _) _) _) _) _
  refine Dict.ext ?_ hcanon ?_
  · exact Dict.canon_insertOpt (Dict.canon_insertOpt (Dict.canon_insertOpt
      (Dict.canon_insertOpt (Dict.canon_insertOpt (Dict.canon_insertOpt
        (Dict.canon_insertOpt hca _ _) _ _) _ _) _ _) _ _) _ _) _ _
  · intro k
    rcases eq_or_ne k "data" with rfl | h1
    · simp [ProgressEvent.to_dict, Dict.lookup_insertOpt, Dict.lookup_erase]
    rcases eq_or_ne k "error" with rfl | h2
    · simp [ProgressEvent.to_dict, Dict.lookup_insertOpt, Dict.lookup_erase]
    rcases eq_or_ne k "message" with rfl | h3
    · simp [ProgressEvent.to_dict, Dict.lookup_insertOpt, Dict.lookup_erase]
    rcases eq_or_ne k "progress" with rfl | h4
    · simp [ProgressEvent.to_dict, Dict.lookup_insertOpt, Dict.lookup_erase]
    rcases eq_or_ne k "stage" with rfl | h5
    · simp [ProgressEvent.to_dict, Dict.lookup_insertOpt, Dict.lookup_erase, hstv]
    rcases eq_or_ne k "timestamp" with rfl | h6
    · simp [ProgressEvent.to_dict, Dict.lookup_insertOpt, Dict.lookup_erase]
    rcases eq_or_ne k "trackDetails" with rfl | h7
    · simp [ProgressEvent.to_dict, Dict.lookup_insertOpt, Dict.lookup_erase, htdv]
    simp [ProgressEvent.to_dict, Dict.lookup_insertOpt, Dict.lookup_erase,
      h1, h2, h3, h4, h5, h6, h7]

/-- `JobStatus` round trip (the `events` key present and well-typed). -/
theorem jobStatus_roundtrip {d : Dict} (h : JobStatus.WT d = true) :
    ∃ m, JobStatus.from_dict d = some m ∧ JobStatus.to_dict m = d := by
  rw [JobStatus.WT, Bool.and_eq_true, Bool.and_eq_true, Bool.and_eq_true] at h
  obtain ⟨⟨⟨hsk, hkeys⟩, hev⟩, htl⟩ := h
  have hcanon : Dict.Canon d := Dict.keysSorted_iff_canon.mp hsk
  cases hv : d.lookup "events" with
  | none => rw [hv] at hev; exact Bool.noConfusion hev
  | some v =>
    rw [hv] at hev
    cases v with
    | vNull => exact Bool.noConfusion hev
    | vBool b => exact Bool.noConfusion hev
    | vNum n => exact Bool.noConfusion hev
    | vStr s => exact Bool.noConfusion hev
    | vDict dd => exact Bool.noConfusion hev
    | vList l =>
      obtain ⟨evs, hps, hmap⟩ :=
        parseAll_roundtrip ProgressEvent.WT ProgressEvent.from_dict
          ProgressEvent.to_dict (fun dd hdd => event_roundtrip hdd) l hev
      have htlp : ∃ tl,
          parseNested DomainTracklist.from_dict (d.lookup "tracklist")
            = some tl ∧
          tl.map (fun x => Value.vDict (DomainTracklist.to_dict x))
            = d.lookup "tracklist" := by
        cases hv2 : d.lookup "tracklist" with
        | none => exact ⟨none, rfl, rfl⟩
        | some w =>
          rw [hv2] at htl
          cases w with
          | vNull => exact Bool.noConfusion htl
          | vBool b => exact Bool.noConfusion htl
          | vNum n => exact Bool.noConfusion htl
          | vStr s2 => exact Bool.noConfusion htl
          | vList l2 => exact Bool.noConfusion htl
          | vDict dd =>
            obtain ⟨m0, hfd0, htd0⟩ := tracklist_roundtrip htl
            refine ⟨some m0, ?_, ?_⟩
            · rw [parseNested]
              simp [Value.asDict, hfd0]
            · simp [htd0]
      obtain ⟨tl, hptl, htlv⟩ := htlp
      have hfd : JobStatus.from_dict d = some
          { end_time := d.lookup "endTime", error := d.lookup "error",
            events := some evs, id := d.lookup "id",
            message := d.lookup "message", progress := d.lookup "progress",
            results := d.lookup "results", start_time := d.lookup "startTime",
            status := d.lookup "status", tracklist := tl,
            additional_properties :=
              (((((((((d.erase "endTime").erase "error").erase "events").erase
                "id").erase "message").erase "progress").erase "results").erase
                "startTime").erase "status").erase "tracklist" } := by
        rw [JobStatus.from_dict, hv,
          show parseObjList ProgressEvent.from_dict (some (Value.vList l))
            = parseAll ProgressEvent.from_dict l from rfl, hps, hptl]
      refine ⟨_, hfd, ?_⟩
      have hca : Dict.Canon ((((((((((d.erase "endTime").erase "error").erase
          "events").erase "id").erase "message").erase "progress").erase
          "results").erase "startTime").erase "status").erase "tracklist") :=
        Dict.canon_erase (Dict.canon_erase (Dict.canon_erase (Dict.canon_erase
          (Dict.canon_erase (Dict.canon_erase (Dict.canon_erase (Dict.canon_erase
            (Dict.canon_erase (Dict.canon_erase hcanon _) _) _) _) _) _) _) _) _) _
      refine Dict.ext ?_ hcanon ?_
      · exact Dict.canon_insertOpt (Dict.canon_insertOpt (Dict.canon_insertOpt
          (Dict.canon_insertOpt (Dict.canon_insertOpt (Dict.canon_insertOpt
            (Dict.canon_insertOpt (Dict.canon_insertOpt (Dict.canon_insertOpt
              (Dict.canon_insertOpt hca _ _) _ _) _ _) _ _) _ _) _ _) _ _) _ _) _ _) _ _
      · intro k
        rcases eq_or_ne k "endTime" with rfl | h1
        · simp [JobStatus.to_dict, Dict.lookup_insertOpt, Dict.lookup_erase]
        rcases eq_or_ne k "error" with rfl | h2
        · simp [JobStatus.to_dict, Dict.lookup_insertOpt, Dict.lookup_erase]
        rcases eq_or_ne k "events" with rfl | h3
        · simp [JobStatus.to_dict, Dict.lookup_insertOpt, Dict.lookup_erase,
            hv, hmap]
        rcases eq_or_ne k "id" with rfl | h4
        · simp [JobStatus.to_dict, Dict.lookup_insertOpt, Dict.lookup_erase]
        rcases eq_or_ne k "message" with rfl | h5
        · simp [JobStatus.to_dict, Dict.lookup_insertOpt, Dict.lookup_erase]
        rcases eq_or_ne k "progress" with rfl | h6
        · simp [JobStatus.to_dict, Dict.lookup_insertOpt, Dict.lookup_erase]
        rcases eq_or_ne k "results" with rfl | h7
        · simp [JobStatus.to_dict, Dict.lookup_insertOpt, Dict.lookup_erase]
        rcases eq_or_ne k "startTime" with rfl | h8
        · simp [JobStatus.to_dict, Dict.lookup_insertOpt, Dict.lookup_erase]
        rcases eq_or_ne k "status" with rfl | h9
        · simp [JobStatus.to_dict, Dict.lookup_insertOpt, Dict.lookup_erase]
        rcases eq_or_ne k "tracklist" with rfl | h10
        · simp [JobStatus.to_dict, Dict.lookup_insertOpt, Dict.lookup_erase, htlv]
        simp [JobStatus.to_dict, Dict.lookup_insertOpt, Dict.lookup_erase,
          h1, h2, h3, h4, h5, h6, h7, h8, h9, h10]

/-- `JobRequest` round trip (both required keys present). -/
theorem jobRequest_roundtrip {d : Dict} (h : JobRequest.WT d = true) :
    ∃ m, JobRequest.from_dict d = some m ∧ JobRequest.to_dict m = d := by
  rw [JobRequest.WT, Bool.and_eq_true, Bool.and_eq_true, Bool.and_eq_true] at h
  obtain ⟨⟨⟨hsk, hkeys⟩, ht⟩, hu⟩ := h
  have hcanon : Dict.Canon d := Dict.keysSorted_iff_canon.mp hsk
  cases hvt : d.lookup "tracklist" with
  | none => rw [hvt] at ht; exact Bool.noConfusion ht
  | some t =>
    cases hvu : d.lookup "url" with
    | none => rw [hvu] at hu; exact Bool.noConfusion hu
    | some u =>
      have hfd : JobRequest.from_dict d = some
          { tracklist := t, url := u,
            file_extension := d.lookup "fileExtension",
            max_concurrent_tasks := d.lookup "maxConcurrentTasks",
            additional_properties :=
              (((d.erase "tracklist").erase "url").erase "fileExtension").erase
                "maxConcurrentTasks" } := by
        rw [JobRequest.from_dict, hvt, hvu]
      refine ⟨_, hfd, ?_⟩
      have hca : Dict.Canon ((((d.erase "tracklist").erase "url").erase
          "fileExtension").erase "maxConcurrentTasks") :=
        Dict.canon_erase (Dict.canon_erase (Dict.canon_erase
          (Dict.canon_erase hcanon _) _) _) _
      refine Dict.ext ?_ hcanon ?_
      · exact Dict.canon_insertOpt (Dict.canon_insertOpt
          (Dict.canon_insert (Dict.canon_insert hca _ _) _ _) _ _) _ _
      · intro k
        rcases eq_or_ne k "tracklist" with rfl | h1
        · simp [JobRequest.to_dict, Dict.lookup_insertOpt, Dict.lookup_insert,
            Dict.lookup_erase, hvt]
        rcases eq_or_ne k "url" with rfl | h2
        · simp [JobRequest.to_dict, Dict.lookup_insertOpt, Dict.lookup_insert,
            Dict.lookup_erase, hvu]
        rcases eq_or_ne k "fileExtension" with rfl | h3
        · simp [JobRequest.to_dict, Dict.lookup_insertOpt, Dict.lookup_insert,
            Dict.lookup_erase]
        rcases eq_or_ne k "maxConcurrentTasks" with rfl | h4
        · simp [JobRequest.to_dict, Dict.lookup_insertOpt, Dict.lookup_insert,
            Dict.lookup_erase]
        simp [JobRequest.to_dict, Dict.lookup_insertOpt, Dict.lookup_insert,
          Dict.lookup_erase, h1, h2, h3, h4]

/-- `JobResponse` round trip (the `jobs` key present and well-typed). -/
theorem jobResponse_roundtrip {d : Dict} (h : JobResponse.WT d = true) :
    ∃ m, JobResponse.from_dict d = some m ∧ JobResponse.to_dict m = d := by
  rw [JobResponse.WT, Bool.and_eq_true, Bool.and_eq_true] at h
  obtain ⟨⟨hsk, hkeys⟩, hjs⟩ := h
  have hcanon : Dict.Canon d := Dict.keysSorted_iff_canon.mp hsk
  cases hv : d.lookup "jobs" with
  | none => rw [hv] at hjs; exact Bool.noConfusion hjs
  | some v =>
    rw [hv] at hjs
    cases v with
    | vNull => exact Bool.noConfusion hjs
    | vBool b => exact Bool.noConfusion hjs
    | vNum n => exact Bool.noConfusion hjs
    | vStr s => exact Bool.noConfusion hjs
    | vDict dd => exact Bool.noConfusion hjs
    | vList l =>
      obtain ⟨js, hps, hmap⟩ :=
        parseAll_roundtrip JobStatus.WT JobStatus.from_dict JobStatus.to_dict
          (fun dd hdd => jobStatus_roundtrip hdd) l hjs
      have hfd : JobResponse.from_dict d = some
          { jobs := some js, page := d.lookup "page",
            page_size := d.lookup "pageSize", total_jobs := d.lookup "totalJobs",
            total_pages := d.lookup "totalPages",
            additional_properties :=
              ((((d.erase "jobs").erase "page").erase "pageSize").erase
                "totalJobs").erase "totalPages" } := by
        rw [JobResponse.from_dict, hv,
          show parseObjList JobStatus.from_dict (some (Value.vList l))
            = parseAll JobStatus.from_dict l from rfl, hps]
      refine ⟨_, hfd, ?_⟩
      have hca : Dict.Canon (((((d.erase "jobs").erase "page").erase
          "pageSize").erase "totalJobs").erase "totalPages") :=
        Dict.canon_erase (Dict.canon_erase (Dict.canon_erase (Dict.canon_erase
          (Dict.canon_erase hcanon _) _) _) _) _
      refine Dict.ext ?_ hcanon ?_
      · exact Dict.canon_insertOpt (Dict.canon_insertOpt (Dict.canon_insertOpt
          (Dict.canon_insertOpt (Dict.canon_insertOpt hca _ _) _ _) _ _) _ _) _ _
      · intro k
        rcases eq_or_ne k "jobs" with rfl | h1
        · simp [JobResponse.to_dict, Dict.lookup_insertOpt, Dict.lookup_erase,
            hv, hmap]
        rcases eq_or_ne k "page" with rfl | h2
        · simp [JobResponse.to_dict, Dict.lookup_insertOpt, Dict.lookup_erase]
        rcases eq_or_ne k "pageSize" with rfl | h3
        · simp [JobResponse.to_dict, Dict.lookup_insertOpt, Dict.lookup_erase]
        rcases eq_or_ne k "totalJobs" with rfl | h4
        · simp [JobResponse.to_dict, Dict.lookup_insertOpt, Dict.lookup_erase]
        rcases eq_or_ne k "totalPages" with rfl | h5
        · simp [JobResponse.to_dict, Dict.lookup_insertOpt, Dict.lookup_erase]
        simp [JobResponse.to_dict, Dict.lookup_insertOpt, Dict.lookup_erase,
          h1, h2, h3, h4, h5]

/-- C1 counterexample: for `JobStatus` the empty mapping — which uses
only documented keys, vacuously well-typed — does not round-trip: the
absent `events` key reappears bound to an explicitly-present empty
list (`_events or []` in `from_dict` conflates absent with empty). -/
theorem claim1_counterexample :
    (JobStatus.from_dict []).map JobStatus.to_dict
      = some [("events", Value.vList [])] ∧
    [("events", Value.vList [])] ≠ ([] : Dict) := by decide

/-- C1 as amended: `to_dict ∘ from_dict` is the identity on canonical
mappings that use only the model's documented keys with well-typed
values, provided the three list-valued keys — `events` of `JobStatus`,
`jobs` of `JobResponse`, `tracks` of `DomainTracklist` — are explicitly
present (possibly as empty lists) wherever their model occurs; a
mapping lacking one of those keys is returned with the key bound to the
empty list, so for those three fields absent-from-wire is conflated
with explicitly-empty, while every other absent key stays absent. -/
theorem claim1_roundtrip :
    (∀ d, DomainTrack.WT d = true →
      ∃ m, DomainTrack.from_dict d = some m ∧ DomainTrack.to_dict m = d) ∧
    (∀ d, ProgressTrackDetails.WT d = true →
      ∃ m, ProgressTrackDetails.from_dict d = some m ∧
        ProgressTrackDetails.to_dict m = d) ∧
    (∀ d, DomainTracklist.WT d = true →
      ∃ m, DomainTracklist.from_dict d = some m ∧
        DomainTracklist.to_dict m = d) ∧
    (∀ d, ProgressEvent.WT d = true →
      ∃ m, ProgressEvent.from_dict d = some m ∧ ProgressEvent.to_dict m = d) ∧
    (∀ d, JobStatus.WT d = true →
      ∃ m, JobStatus.from_dict d = some m ∧ JobStatus.to_dict m = d) ∧
    (∀ d, JobRequest.WT d = true →
      ∃ m, JobRequest.from_dict d = some m ∧ JobRequest.to_dict m = d) ∧
    (∀ d, JobResponse.WT d = true →
      ∃ m, JobResponse.from_dict d = some m ∧ JobResponse.to_dict m = d) :=
  ⟨fun _ h => track_roundtrip h,
   fun _ h => trackDetails_roundtrip h,
   fun _ h => tracklist_roundtrip h,
   fun _ h => event_roundtrip h,
   fun _ h => jobStatus_roundtrip h,
   fun _ h => jobRequest_roundtrip h,
   fun _ h => jobResponse_roundtrip h⟩

/-- C1 witness: a concrete well-typed `JobStatus` mapping round-trips. -/
theorem claim1_witness :
    JobStatus.WT [("events", Value.vList []), ("id", Value.vStr "j1")] = true ∧
    (∃ m, JobStatus.from_dict [("events", Value.vList []), ("id", Value.vStr "j1")]
        = some m ∧
      JobStatus.to_dict m
        = [("events", Value.vList []), ("id", Value.vStr "j1")]) :=
  ⟨by decide, claim1_roundtrip.2.2.2.2.1 _ (by decide)⟩

/-- C2 witness: an undocumented key `zz` survives a `JobRequest`
round trip. -/
theorem claim2_witness :
    JobRequest.from_dict
        [("tracklist", Value.vStr "t"), ("url", Value.vStr "u"), ("zz", Value.vNum 7)]
      = some { tracklist := Value.vStr "t", url := Value.vStr "u",
               file_extension := none, max_concurrent_tasks := none,
               additional_properties := [("zz", Value.vNum 7)] } ∧
    "zz" ∉ JobRequest.wireKeys ∧
    (({ tracklist := Value.vStr "t", url := Value.vStr "u",
        file_extension := none, max_concurrent_tasks := none,
        additional_properties := [("zz", Value.vNum 7)] } : JobRequest).additional_properties.lookup
        "zz"
      = Dict.lookup
          [("tracklist", Value.vStr "t"), ("url", Value.vStr "u"), ("zz", Value.vNum 7)] "zz" ∧
     (JobRequest.to_dict
        { tracklist := Value.vStr "t", url := Value.vStr "u",
          file_extension := none, max_concurrent_tasks := none,
          additional_properties := [("zz", Value.vNum 7)] }).lookup "zz"
      = Dict.lookup
          [("tracklist", Value.vStr "t"), ("url", Value.vStr "u"), ("zz", Value.vNum 7)] "zz") := by
  refine ⟨by decide, by decide, ?_⟩
  exact claim2_unknown_keys_survive.2.2.2.2.2.1 _ _ _ (by decide) (by decide)

/-- Modelled from the spec: `ServerMessageResponse`, the submit
endpoint's 202 payload (`{message}`-style acknowledgment carrying the
job identifier); its model file is not among the given client sources,
so it follows the generated-model pattern with a single optional
passthrough field and the additional-properties bag. -/
structure ServerMessageResponse : Type where
  message : Option Value
  additional_properties : Dict
deriving DecidableEq

/-- Modelled from the spec: `ServerMessageResponse.from_dict`. -/
def ServerMessageResponse.from_dict (d : Dict) : ServerMessageResponse :=
  { message := d.lookup "message", additional_properties := d.erase "message" }

/-- Modelled from the spec: `ServerErrorResponse`, the 400
(`InvalidRequest`) payload; model file not among the given sources. -/
structure ServerErrorResponse : Type where
  error : Option Value
  additional_properties : Dict
deriving DecidableEq

/-- Modelled from the spec: `ServerErrorResponse.from_dict`. -/
def ServerErrorResponse.from_dict (d : Dict) : ServerErrorResponse :=
  { error := d.lookup "error", additional_properties := d.erase "error" }

/-- The value `_parse_response` of `api/jobs/post_api_process.py`
produces: a parsed payload, `None`, or a raised `UnexpectedStatus`. -/
inductive ParseOutcome : Type where
  | msg : ServerMessageResponse → ParseOutcome
  | err : ServerErrorResponse → ParseOutcome
  | noneResult : ParseOutcome
  | unexpectedStatus : Nat → ParseOutcome
deriving DecidableEq

/-- `_parse_response` of `api/jobs/post_api_process.py`, given the
client's `raise_on_unexpected_status` flag, the HTTP status code and
the decoded JSON body. -/
def parse_response (raiseOnUnexpected : Bool) (statusCode : Nat)
    (body : Dict) : ParseOutcome :=
  if statusCode = 202 then .msg (ServerMessageResponse.from_dict body)
  else if statusCode = 400 then .err (ServerErrorResponse.from_dict body)
  else if raiseOnUnexpected then .unexpectedStatus statusCode
  else .noneResult

/-- C3 — submit-endpoint response dispatch: `_parse_response` returns a
parsed `ServerMessageResponse` exactly on status 202, a parsed
`ServerErrorResponse` exactly on status 400, and otherwise raises
`UnexpectedStatus` when `raise_on_unexpected_status` is set and returns
`None` when it is not. -/
theorem claim3_parse_response_dispatch :
    (∀ (r : Bool) (s : Nat) (b : Dict),
      (∃ m, parse_response r s b = .msg m) ↔ s = 202) ∧
    (∀ (r : Bool) (s : Nat) (b : Dict),
      (∃ e, parse_response r s b = .err e) ↔ s = 400) ∧
    (∀ (s : Nat) (b : Dict), s ≠ 202 → s ≠ 400 →
      parse_response true s b = .unexpectedStatus s) ∧
    (∀ (s : Nat) (b : Dict), s ≠ 202 → s ≠ 400 →
      parse_response false s b = .noneResult) := by
  refine ⟨?_, ?_, ?_, ?_⟩
  · intro r s b
    constructor
    · intro ⟨m, hm⟩
      by_cases h2 : s = 202
      · exact h2
      · exfalso
        rw [parse_response, if_neg h2] at hm
        by_cases h4 : s = 400
        · rw [if_pos h4] at hm; exact ParseOutcome.noConfusion hm
        · rw [if_neg h4] at hm
          cases r with
          | true => rw [if_pos rfl] at hm; exact ParseOutcome.noConfusion hm
          | false => rw [if_neg (by simp)] at hm; exact ParseOutcome.noConfusion hm
    · intro h2
      exact ⟨_, by rw [parse_response, if_pos h2]⟩
  · intro r s b
    constructor
    · intro ⟨e, he⟩
      by_cases h4 : s = 400
      · exact h4
      · exfalso
        by_cases h2 : s = 202
        · rw [parse_response, if_pos h2] at he; exact ParseOutcome.noConfusion he
        · rw [parse_response, if_neg h2, if_neg h4] at he
          cases r with
          | true => rw [if_pos rfl] at he; exact ParseOutcome.noConfusion he
          | false => rw [if_neg (by simp)] at he; exact ParseOutcome.noConfusion he
    · intro h4
      exact ⟨ServerErrorResponse.from_dict b,
        by rw [parse_response, if_neg (by rw [h4]; decide), if_pos h4]⟩
  · intro s b h2 h4
    rw [parse_response, if_neg h2, if_neg h4, if_pos rfl]
  · intro s b h2 h4
    rw [parse_response, if_neg h2, if_neg h4, if_neg (by simp)]

/-- C3 witness. -/
theorem claim3_witness :
    (500 ≠ 202 ∧ 500 ≠ 400) ∧
    parse_response true 500 [] = ParseOutcome.unexpectedStatus 500 ∧
    parse_response false 500 [] = ParseOutcome.noneResult :=
  ⟨⟨by decide, by decide⟩,
   claim3_parse_response_dispatch.2.2.1 500 [] (by decide) (by decide),
   claim3_parse_response_dispatch.2.2.2 500 [] (by decide) (by decide)⟩

/-- Modelled from the spec: `complete` and `error` are the terminal
lifecycle states of §4.2. -/
def ProgressStage.isTerminal : ProgressStage → Bool
  | .complete => true
  | .error => true
  | _ => false

/-- Modelled from the spec: the §4.2 transition table, as the allowed
(current status, incoming event stage) pairs — the success path
`initializing → downloading → importing → processing → complete` with
the `processing` self-loop for per-track completion events, and `error`
reachable from every non-terminal state. -/
def allowedTransition : ProgressStage → ProgressStage → Bool
  | .initializing, .downloading => true
  | .downloading, .importing => true
  | .importing, .processing => true
  | .processing, .processing => true
  | .processing, .complete => true
  | s, .error => !s.isTerminal
  | _, _ => false

/-- Modelled from the spec: the slice of a job's state governed by the
§4.2 state machine — the current `status` and the stages of the
append-only event log (every logged event carries a terminal-or-running
stage). -/
structure SpecJob : Type where
  status : ProgressStage
  events : List ProgressStage
deriving DecidableEq

/-- Modelled from the spec: job creation — state `initializing`, empty
event log. -/
def SpecJob.create : SpecJob :=
  { status := ProgressStage.initializing, events := [] }

/-- Modelled from the spec: §4.2's event validation — an incoming event
whose stage is an allowed transition from the current status is
appended and becomes the new status; any other event is rejected and
logged as a protocol violation, leaving the job unchanged. -/
def SpecJob.applyEvent (j : SpecJob) (s : ProgressStage) : SpecJob :=
  if allowedTransition j.status s then
    { status := s, events := j.events ++ [s] }
  else j

/-- The stage of the latest event of a log, starting from a default. -/
def finalStage : ProgressStage → List ProgressStage → ProgressStage
  | cur, [] => cur
  | _, s :: rest => finalStage s rest

/-- Modelled from the spec: the pure function deriving a job's status
from its event log — the stage of the latest (terminal-or-running)
event, `initializing` for an empty log. -/
def derivedStatus (events : List ProgressStage) : ProgressStage :=
  finalStage ProgressStage.initializing events

/-- A stage sequence is a valid path through the §4.2 table from a
given state. -/
def validPath : ProgressStage → List ProgressStage → Bool
  | _, [] => true
  | cur, s :: rest => allowedTransition cur s && validPath s rest

/-- The jobs reachable by the lifecycle manager: created, then evolved
one worker event at a time. -/
inductive SpecJob.Reachable : SpecJob → Prop where
  | created : SpecJob.Reachable SpecJob.create
  | step (j : SpecJob) (s : ProgressStage) :
      SpecJob.Reachable j → SpecJob.Reachable (j.applyEvent s)

theorem finalStage_append (cur : ProgressStage) (evs : List ProgressStage)
    (s : ProgressStage) : finalStage cur (evs ++ [s]) = s := by
  induction evs generalizing cur with
  | nil => rfl
  | cons a rest ih => exact ih a

theorem validPath_append (cur : ProgressStage) (evs : List ProgressStage)
    (s : ProgressStage) :
    validPath cur (evs ++ [s])
      = (validPath cur evs && allowedTransition (finalStage cur evs) s) := by
  induction evs generalizing cur with
  | nil => simp [validPath, finalStage]
  | cons a rest ih =>
    rw [List.cons_append, validPath, validPath, ih a, finalStage,
      Bool.and_assoc]

/-- C8 — status and event log never diverge: for every job reachable by
the modelled lifecycle manager, the job's status equals the pure
function of the latest event's stage, and the status sequence implied
by the event log is a valid path through the §4.2 state table. -/
theorem claim8_status_event_log_consistency (j : SpecJob)
    (hr : SpecJob.Reachable j) :
    j.status = derivedStatus j.events ∧
    validPath ProgressStage.initializing j.events = true := by
  induction hr with
  | created => exact ⟨rfl, rfl⟩
  | step j s hj ih =>
    rw [SpecJob.applyEvent]
    by_cases ha : allowedTransition j.status s = true
    · rw [if_pos ha]
      constructor
      · rw [derivedStatus, finalStage_append]
      · rw [validPath_append, ih.2, Bool.true_and]
        rw [show finalStage ProgressStage.initializing j.events
              = derivedStatus j.events from rfl, ← ih.1]
        exact ha
    · rw [if_neg ha]
      exact ih

/-- C8 witness: a job driven through `downloading` then a rejected
out-of-order `complete` event still satisfies the invariant. -/
theorem claim8_witness :
    SpecJob.Reachable
      ((SpecJob.create.applyEvent ProgressStage.downloading).applyEvent
        ProgressStage.complete) ∧
    (((SpecJob.create.applyEvent ProgressStage.downloading).applyEvent
        ProgressStage.complete).status
      = derivedStatus
          ((SpecJob.create.applyEvent ProgressStage.downloading).applyEvent
            ProgressStage.complete).events ∧
     validPath ProgressStage.initializing
        ((SpecJob.create.applyEvent ProgressStage.downloading).applyEvent
          ProgressStage.complete).events = true) :=
  ⟨SpecJob.Reachable.step _ _ (SpecJob.Reachable.step _ _ SpecJob.Reachable.created),
   claim8_status_event_log_consistency _
     (SpecJob.Reachable.step _ _
       (SpecJob.Reachable.step _ _ SpecJob.Reachable.created))⟩

/-- Modelled from the spec: a job as the paginator sees it — its
creation order and its identifier. -/
structure PageJob : Type where
  created : Nat
  id : String
deriving DecidableEq

/-- Modelled from the spec: the deterministic listing order — creation
order, ties broken by identifier. -/
def pageJobLe (a b : PageJob) : Bool :=
  decide (a.created < b.created) ||
  (decide (a.created = b.created) && (keyLt a.id b.id || decide (a.id = b.id)))

theorem pageJobLe_total (a b : PageJob) :
    pageJobLe a b = true ∨ pageJobLe b a = true := by
  simp only [pageJobLe, Bool.or_eq_true, Bool.and_eq_true, decide_eq_true_eq]
  by_cases h1 : a.created < b.created
  · exact Or.inl (Or.inl h1)
  by_cases h2 : b.created < a.created
  · exact Or.inr (Or.inl h2)
  have hc : a.created = b.created := by omega
  cases hk : keyLt a.id b.id with
  | true => exact Or.inl (Or.inr ⟨hc, Or.inl rfl⟩)
  | false =>
    cases hk2 : keyLt b.id a.id with
    | true => exact Or.inr (Or.inr ⟨hc.symm, Or.inl rfl⟩)
    | false => exact Or.inl (Or.inr ⟨hc, Or.inr (keyLt_eq_of_not hk hk2)⟩)

theorem pageJobLe_trans {a b c : PageJob} (h1 : pageJobLe a b = true)
    (h2 : pageJobLe b c = true) : pageJobLe a c = true := by
  simp only [pageJobLe, Bool.or_eq_true, Bool.and_eq_true,
    decide_eq_true_eq] at h1 h2 ⊢
  rcases h1 with h1 | ⟨hc1, hi1⟩
  · rcases h2 with h2 | ⟨hc2, _⟩
    · exact Or.inl (by omega)
    · exact Or.inl (by omega)
  · rcases h2 with h2 | ⟨hc2, hi2⟩
    · exact Or.inl (by omega)
    · refine Or.inr ⟨by omega, ?_⟩
      rcases hi1 with hk1 | he1
      · rcases hi2 with hk2 | he2
        · exact Or.inl (keyLt_trans hk1 hk2)
        · exact Or.inl (he2 ▸ hk1)
      · rcases hi2 with hk2 | he2
        · exact Or.inl (he1 ▸ hk2)
        · exact Or.inr (he1.trans he2)

/-- Insertion into a list sorted by the listing order. -/
def insertJob (a : PageJob) : List PageJob → List PageJob
  | [] => [a]
  | b :: rest => if pageJobLe a b then a :: b :: rest else b :: insertJob a rest

/-- Modelled from the spec: the paginator's deterministic ordering pass
(insertion sort by creation order, then identifier). -/
def sortJobs : List PageJob → List PageJob
  | [] => []
  | a :: rest => insertJob a (sortJobs rest)

theorem insertJob_perm (a : PageJob) (l : List PageJob) :
    List.Perm (insertJob a l) (a :: l) := by
  induction l with
  | nil => exact List.Perm.refl _
  | cons b rest ih =>
    rw [insertJob]
    by_cases h : pageJobLe a b = true
    · rw [if_pos h]
    · rw [if_neg h]
      exact List.Perm.trans (List.Perm.cons b ih) (List.Perm.swap a b rest)

theorem mem_insertJob {a x : PageJob} {l : List PageJob}
    (h : x ∈ insertJob a l) : x = a ∨ x ∈ l := by
  have := (insertJob_perm a l).mem_iff.mp h
  simpa using this

theorem insertJob_sorted (a : PageJob) (l : List PageJob)
    (h : l.Pairwise (fun u v => pageJobLe u v = true)) :
    (insertJob a l).Pairwise (fun u v => pageJobLe u v = true) := by
  induction l with
  | nil => simp [insertJob]
  | cons b rest ih =>
    rw [List.pairwise_cons] at h
    rw [insertJob]
    by_cases hab : pageJobLe a b = true
    · rw [if_pos hab]
      refine List.pairwise_cons.mpr ⟨?_, List.pairwise_cons.mpr h⟩
      intro x hx
      rcases List.mem_cons.mp hx with rfl | hx2
      · exact hab
      · exact pageJobLe_trans hab (h.1 x hx2)
    · rw [if_neg hab]
      have hba : pageJobLe b a = true := (pageJobLe_total a b).resolve_left hab
      refine List.pairwise_cons.mpr ⟨?_, ih h.2⟩
      intro x hx
      rcases mem_insertJob hx with rfl | hx2
      · exact hba
      · exact h.1 x hx2

theorem sortJobs_perm (l : List PageJob) : List.Perm (sortJobs l) l := by
  induction l with
  | nil => exact List.Perm.refl _
  | cons a rest ih =>
    exact List.Perm.trans (insertJob_perm a (sortJobs rest)) (List.Perm.cons a ih)

theorem sortJobs_sorted (l : List PageJob) :
    (sortJobs l).Pairwise (fun u v => pageJobLe u v = true) := by
  induction l with
  | nil => exact List.Pairwise.nil
  | cons a rest ih => exact insertJob_sorted a (sortJobs rest) ih

/-- The paginator's result: a typed `InvalidRequest` failure, or a page
of items with the total job and page counts. -/
inductive PageResult : Type where
  | invalidRequest : PageResult
  | page : List PageJob → Nat → Nat → PageResult
deriving DecidableEq

/-- Modelled from the spec: `Page(jobs, page, pageSize)` — fails with
`InvalidRequest` when `page < 1` or `pageSize < 1`; otherwise clamps
`pageSize` to the configured maximum, sorts deterministically, and
serves the 1-based page window with `totalJobs` and the ceiling
`totalPages`. -/
def Paginator.Page (maxPageSize : Nat) (jobs : List PageJob)
    (page pageSize : Int) : PageResult :=
  if page < 1 ∨ pageSize < 1 then PageResult.invalidRequest
  else
    let size := min pageSize.toNat maxPageSize
    let total := jobs.length
    let totalPages := (total + size - 1) / size
    PageResult.page (((sortJobs jobs).drop ((page.toNat - 1) * size)).take size)
      total totalPages

/-- The five-job fixture of the spec's §8 listing property, in
scrambled creation order. -/
def fiveJobs : List PageJob :=
  [⟨3, "c"⟩, ⟨1, "a"⟩, ⟨5, "e"⟩, ⟨2, "b"⟩, ⟨4, "d"⟩]

/-- C9 — pagination: `page < 1` or `pageSize < 1` fails with
`InvalidRequest`; the listing pass is a deterministic sort (a sorted
permutation by creation order, ties by identifier) and every valid
request reports `totalJobs = jobs.length` and the ceiling `totalPages`,
with an empty item list (same accurate totals, no error) for a page
beyond `totalPages`; five jobs with `pageSize = 2` give exactly the
first two jobs on page 1 with `totalJobs = 5`, `totalPages = 3`, and
page 4 gives zero items with the same totals. -/
theorem claim9_pagination :
    (∀ (mx : Nat) (jobs : List PageJob) (p ps : Int), p < 1 ∨ ps < 1 →
      Paginator.Page mx jobs p ps = PageResult.invalidRequest) ∧
    (∀ jobs : List PageJob, List.Perm (sortJobs jobs) jobs ∧
      (sortJobs jobs).Pairwise (fun u v => pageJobLe u v = true)) ∧
    (∀ (mx : Nat) (jobs : List PageJob) (p ps : Int), 1 ≤ p → 1 ≤ ps →
      Paginator.Page mx jobs p ps
        = PageResult.page
            (((sortJobs jobs).drop ((p.toNat - 1) * min ps.toNat mx)).take
              (min ps.toNat mx))
            jobs.length
            ((jobs.length + min ps.toNat mx - 1) / min ps.toNat mx) ∧
      (((jobs.length + min ps.toNat mx - 1) / min ps.toNat mx < p.toNat ∧ 1 ≤ mx) →
        ((sortJobs jobs).drop ((p.toNat - 1) * min ps.toNat mx)).take
            (min ps.toNat mx) = [])) ∧
    (Paginator.Page 100 fiveJobs 1 2
        = PageResult.page [⟨1, "a"⟩, ⟨2, "b"⟩] 5 3 ∧
      Paginator.Page 100 fiveJobs 4 2 = PageResult.page [] 5 3) := by
  refine ⟨?_, ?_, ?_, ?_, ?_⟩
  · intro mx jobs p ps h
    rw [Paginator.Page, if_pos h]
  · intro jobs
    exact ⟨sortJobs_perm jobs, sortJobs_sorted jobs⟩
  · intro mx jobs p ps h1 h2
    constructor
    · rw [Paginator.Page, if_neg (by omega)]
    · intro ⟨hbeyond, hmx⟩
      have hps : 1 ≤ ps.toNat := by omega
      have hsize : 1 ≤ min ps.toNat mx := by omega
      have hdm := Nat.div_add_mod (jobs.length + min ps.toNat mx - 1) (min ps.toNat mx)
      have hmod := Nat.mod_lt (jobs.length + min ps.toNat mx - 1)
        (show 0 < min ps.toNat mx by omega)
      have htotal : jobs.length
          ≤ ((jobs.length + min ps.toNat mx - 1) / min ps.toNat mx)
            * min ps.toNat mx := by
        rw [Nat.mul_comm]
        omega
      have hstart : jobs.length ≤ (p.toNat - 1) * min ps.toNat mx := by
        have hle : (jobs.length + min ps.toNat mx - 1) / min ps.toNat mx
            ≤ p.toNat - 1 := by omega
        exact le_trans htotal (Nat.mul_le_mul_right _ hle)
      have hlen : (sortJobs jobs).length = jobs.length :=
        (sortJobs_perm jobs).length_eq
      rw [List.drop_eq_nil_of_le (by omega)]
      simp
  · decide
  · decide

/-- C9 witness: a zero page number is rejected. -/
theorem claim9_witness :
    ((0 : Int) < 1 ∨ (5 : Int) < 1) ∧
    Paginator.Page 10 [] 0 5 = PageResult.invalidRequest :=
  ⟨Or.inl (by decide), claim9_pagination.1 10 [] 0 5 (Or.inl (by decide))⟩

/-- C10 witness: a `JobStatus` whose bag collides on `status` and a
`ProgressEvent` whose bag collides on `stage` still serialize the named
fields' values. -/
theorem claim10_witness :
    (({ end_time := none, error := none, events := none, id := none, message := none,
        progress := none, results := none, start_time := none,
        status := some (Value.vStr "processing"), tracklist := none,
        additional_properties := [("status", Value.vStr "spoofed")] } : JobStatus).status
        = some (Value.vStr "processing") ∧
      (JobStatus.to_dict
          { end_time := none, error := none, events := none, id := none, message := none,
            progress := none, results := none, start_time := none,
            status := some (Value.vStr "processing"), tracklist := none,
            additional_properties := [("status", Value.vStr "spoofed")] }).lookup "status"
        = some (Value.vStr "processing")) ∧
    (({ data := none, error := none, message := none, progress := none,
        stage := some ProgressStage.downloading, timestamp := none,
        track_details := none,
        additional_properties := [("stage", Value.vStr "spoofed")] } : ProgressEvent).stage
        = some ProgressStage.downloading ∧
      (ProgressEvent.to_dict
          { data := none, error := none, message := none, progress := none,
            stage := some ProgressStage.downloading, timestamp := none,
            track_details := none,
            additional_properties := [("stage", Value.vStr "spoofed")] }).lookup "stage"
        = some (Value.vStr ProgressStage.downloading.value)) := by
  refine ⟨⟨rfl, ?_⟩, rfl, ?_⟩
  · exact ((claim10_fields_override_additional.1 _ _).2.2.2.2.2.2.2) rfl
  · exact claim10_fields_override_additional.2.2.2.2.2.2.1 _ _ rfl

end DjSet
